import Mathlib

/-!
# Verification of the fitness-manager plan/execution/leaderboard core

Shallow embedding of the service layer of the fitness-manager backend
(`src/services/*.py`) and proofs about it.

Conventions of the embedding:
* UUID columns are modelled as `Nat` identifiers; identifiers produced by
  `uuid4()` at insert time are passed in as explicit arguments.
* Nullable integer columns are `Option Nat`; Python truthiness of such a
  column (`None` and `0` are falsy) is the function `truthy`.
* Float arithmetic of the completion calculator is modelled exactly in `ℚ`;
  the one-decimal presentation rounding (`round(x, 1)`) applied to the final
  float before serialization is outside the model.
* Raising an exception is modelled as returning `Except.error` with the
  exception's kind; an errored operation produces no new database state.
-/

namespace FitnessManager

/-- Error kinds of `src/api/middleware/error_handler.py`:
`NotFoundException`, `BusinessRuleViolationException`, the generic
`AppException("...", "ALREADY_MEMBER", 400)` raised by `invite_member`, and
the validation failure raised by the pydantic boundary schemas. -/
inductive Err where
  | notFound
  | businessRuleViolation
  | alreadyMember
  | validationError
deriving DecidableEq, Repr

/-- Row of table `exercise` (`src/models/exercise.py`). `name` and
`intensity` carry no aggregation logic and are omitted except for `name`,
which is kept because exercise-creation payloads carry it. -/
structure Exercise where
  id : Nat
  plan_id : Nat
  name : String
  duration_minutes : Option Nat
  repetitions : Option Nat
  order_index : Nat
deriving DecidableEq, Repr

/-- Row of table `fitness_plan` (`src/models/fitness_plan.py`); the
`deleted_at` timestamp is abstracted to the boolean `deleted`
(`deleted_at IS NOT NULL`).  `status` and the timestamps carry no logic used
by the verified claims and are omitted. -/
structure FitnessPlan where
  id : Nat
  user_id : Nat
  name : String
  description : Option String
  deleted : Bool
deriving DecidableEq, Repr

/-- Row of table `plan_member` (`src/models/plan_member.py`). -/
structure PlanMember where
  id : Nat
  plan_id : Nat
  user_id : Nat
  invited_by : Option Nat
deriving DecidableEq, Repr

/-- Row of table `user` (`src/models/user.py`); only the fields read by the
verified services are kept. -/
structure User where
  id : Nat
  email : String
deriving DecidableEq, Repr

/-- Row of table `exercise_execution` (`src/models/plan_execution.py`). -/
structure ExerciseExecution where
  id : Nat
  exercise_id : Nat
  completed : Bool
  actual_duration_minutes : Option Nat
  actual_repetitions : Option Nat
deriving DecidableEq, Repr

/-- Row of table `plan_execution` (`src/models/plan_execution.py`) together
with its `exercise_executions` relationship (eagerly loaded via
`selectinload` everywhere the services read it). `execution_date` is a day
ordinal. -/
structure PlanExecution where
  id : Nat
  plan_id : Nat
  user_id : Nat
  execution_date : Nat
  exercise_executions : List ExerciseExecution
deriving DecidableEq, Repr

/-- Python truthiness of a nullable integer column: `None` and `0` are
falsy, every other value is truthy. -/
def truthy : Option Nat → Bool
  | none => false
  | some n => n != 0

/-- Per-exercise completion rate.  This branch structure appears verbatim
twice in the source: `PlanExecutionService.get_plan_executions`
(`plan_execution_service.py` lines 164-188) and
`PlanMemberService.get_plan_leaderboard` (`plan_member_service.py` lines
192-208).  `next((e for e in plan.exercises if e.id == ex_exec.exercise_id),
None)` is `List.find?`. -/
def exerciseCompletionRate (planExercises : List Exercise) (ee : ExerciseExecution) : ℚ :=
  if ee.completed = false then 0
  else
    match planExercises.find? (fun e => e.id == ee.exercise_id) with
    | some exercise =>
      if truthy exercise.duration_minutes && truthy ee.actual_duration_minutes then
        min (((ee.actual_duration_minutes.getD 0 : ℚ) / (exercise.duration_minutes.getD 0 : ℚ)) * 100) 100
      else if truthy exercise.repetitions && truthy ee.actual_repetitions then
        min (((ee.actual_repetitions.getD 0 : ℚ) / (exercise.repetitions.getD 0 : ℚ)) * 100) 100
      else 100
    | none => 100

/-- Overall completion rate of one `PlanExecution` as computed by
`PlanExecutionService.get_plan_executions` (`plan_execution_service.py`
lines 160-194): one rate is appended per exercise execution, and the overall
rate is `sum(rates) / len(rates)` when the list is non-empty, else `0`. -/
def executionCompletionRate (planExercises : List Exercise) (pe : PlanExecution) : ℚ :=
  let rates := pe.exercise_executions.map (exerciseCompletionRate planExercises)
  if rates.isEmpty then 0 else rates.sum / (rates.length : ℚ)

/-- Arithmetic mean of a list of rationals. -/
def listMean (l : List ℚ) : ℚ := l.sum / (l.length : ℚ)

/-- Execution used by the C4/C6 witnesses. -/
def sampleExecution : PlanExecution :=
  { id := 1, plan_id := 1, user_id := 10, execution_date := 0,
    exercise_executions :=
      [ { id := 1, exercise_id := 1, completed := true,
          actual_duration_minutes := some 15, actual_repetitions := none },
        { id := 2, exercise_id := 2, completed := false,
          actual_duration_minutes := none, actual_repetitions := none } ] }

/-- Exercise list used by the concrete witnesses: a 30-minute
duration-based exercise and a 20-repetition repetition-based exercise. -/
def sampleExercises : List Exercise :=
  [ { id := 1, plan_id := 1, name := "run", duration_minutes := some 30,
      repetitions := none, order_index := 0 },
    { id := 2, plan_id := 1, name := "situps", duration_minutes := none,
      repetitions := some 20, order_index := 1 } ]

/-- C4: for every PlanExecution, the overall completion rate equals the
arithmetic mean of the per-exercise completion rates of its
ExerciseExecutions, and equals 0 when the execution has zero
ExerciseExecutions. -/
theorem execution_completion_rate_is_mean
    (planExercises : List Exercise) (pe : PlanExecution) :
    (pe.exercise_executions = [] → executionCompletionRate planExercises pe = 0) ∧
    (pe.exercise_executions ≠ [] →
      executionCompletionRate planExercises pe =
        listMean (pe.exercise_executions.map (exerciseCompletionRate planExercises))) := by
  constructor
  · intro h
    simp [executionCompletionRate, h]
  · intro h
    simp [executionCompletionRate, listMean, List.isEmpty_iff, h]

/-- Witness for C4 at a concrete execution: rates are 50 and 0, mean 25;
and the empty execution gets rate 0. -/
theorem execution_completion_rate_is_mean_witness :
    executionCompletionRate sampleExercises sampleExecution = 25 ∧
    executionCompletionRate sampleExercises
      { sampleExecution with exercise_executions := [] } = 0 := by
  constructor
  · have h := (execution_completion_rate_is_mean sampleExercises sampleExecution).2
      (by decide)
    rw [h]
    simp [listMean, sampleExercises, sampleExecution, exerciseCompletionRate, truthy]
    norm_num
  · exact (execution_completion_rate_is_mean sampleExercises
      { sampleExecution with exercise_executions := [] }).1 rfl

/-- C6: for every ExerciseExecution with `completed = false`, the
per-exercise completion rate is 0, for all values of
`actual_duration_minutes` and `actual_repetitions`. -/
theorem not_completed_rate_zero
    (planExercises : List Exercise) (ee : ExerciseExecution)
    (h : ee.completed = false) :
    exerciseCompletionRate planExercises ee = 0 := by
  simp [exerciseCompletionRate, h]

/-- Witness for C6: a not-completed execution with recorded actuals still
rates 0. -/
theorem not_completed_rate_zero_witness :
    exerciseCompletionRate sampleExercises
      { id := 7, exercise_id := 1, completed := false,
        actual_duration_minutes := some 45, actual_repetitions := some 99 } = 0 :=
  not_completed_rate_zero sampleExercises _ rfl

/-- C5: for a completed ExerciseExecution, the per-exercise completion rate
is the capped ratio `min(actual/planned * 100, 100)` when the planned
exercise is duration-based and an actual duration was recorded (both
positive, as the boundary schemas guarantee), analogously for
repetition-based exercises; and it is 100 when no actual metric was
recorded or when the referenced exercise is no longer in the plan. -/
theorem exercise_completion_rate_formula
    (planExercises : List Exercise) (ee : ExerciseExecution)
    (hc : ee.completed = true) :
    (∀ exercise d a,
        planExercises.find? (fun e => e.id == ee.exercise_id) = some exercise →
        exercise.duration_minutes = some d → ee.actual_duration_minutes = some a →
        0 < d → 0 < a →
        exerciseCompletionRate planExercises ee = min ((a : ℚ) / (d : ℚ) * 100) 100) ∧
    (∀ exercise r a,
        planExercises.find? (fun e => e.id == ee.exercise_id) = some exercise →
        exercise.duration_minutes = none →
        exercise.repetitions = some r → ee.actual_repetitions = some a →
        0 < r → 0 < a →
        exerciseCompletionRate planExercises ee = min ((a : ℚ) / (r : ℚ) * 100) 100) ∧
    (∀ exercise,
        planExercises.find? (fun e => e.id == ee.exercise_id) = some exercise →
        ee.actual_duration_minutes = none → ee.actual_repetitions = none →
        exerciseCompletionRate planExercises ee = 100) ∧
    (planExercises.find? (fun e => e.id == ee.exercise_id) = none →
        exerciseCompletionRate planExercises ee = 100) := by
  refine ⟨?_, ?_, ?_, ?_⟩
  · intro exercise d a hfind hd ha hdpos hapos
    simp [exerciseCompletionRate, hc, hfind, truthy, hd, ha,
      Nat.pos_iff_ne_zero.mp hdpos, Nat.pos_iff_ne_zero.mp hapos]
  · intro exercise r a hfind hd hr ha hrpos hapos
    simp [exerciseCompletionRate, hc, hfind, truthy, hd, hr, ha,
      Nat.pos_iff_ne_zero.mp hrpos, Nat.pos_iff_ne_zero.mp hapos]
  · intro exercise hfind hd hr
    simp [exerciseCompletionRate, hc, hfind, truthy, hd, hr]
  · intro hfind
    simp [exerciseCompletionRate, hc, hfind]

/-- Witness for C5: actual 45 minutes against planned 30 is capped at 100
(not 150); 15 against 30 gives 50; a completed execution with no recorded
actuals gets 100; a completed execution whose exercise is missing from the
plan gets 100. -/
theorem exercise_completion_rate_formula_witness :
    exerciseCompletionRate sampleExercises
      { id := 3, exercise_id := 1, completed := true,
        actual_duration_minutes := some 45, actual_repetitions := none } = 100 ∧
    exerciseCompletionRate sampleExercises
      { id := 4, exercise_id := 1, completed := true,
        actual_duration_minutes := some 15, actual_repetitions := none } = 50 ∧
    exerciseCompletionRate sampleExercises
      { id := 5, exercise_id := 2, completed := true,
        actual_duration_minutes := none, actual_repetitions := none } = 100 ∧
    exerciseCompletionRate sampleExercises
      { id := 6, exercise_id := 99, completed := true,
        actual_duration_minutes := some 45, actual_repetitions := none } = 100 := by
  refine ⟨?_, ?_, ?_, ?_⟩
  · have h := (exercise_completion_rate_formula sampleExercises
      { id := 3, exercise_id := 1, completed := true,
        actual_duration_minutes := some 45, actual_repetitions := none } rfl).1
      (sampleExercises.get ⟨0, by decide⟩) 30 45 (by decide) rfl rfl (by decide) (by decide)
    rw [h]; norm_num
  · have h := (exercise_completion_rate_formula sampleExercises
      { id := 4, exercise_id := 1, completed := true,
        actual_duration_minutes := some 15, actual_repetitions := none } rfl).1
      (sampleExercises.get ⟨0, by decide⟩) 30 15 (by decide) rfl rfl (by decide) (by decide)
    rw [h]; norm_num
  · exact (exercise_completion_rate_formula sampleExercises
      { id := 5, exercise_id := 2, completed := true,
        actual_duration_minutes := none, actual_repetitions := none } rfl).2.2.1
      (sampleExercises.get ⟨1, by decide⟩) (by decide) rfl rfl
  · exact (exercise_completion_rate_formula sampleExercises
      { id := 6, exercise_id := 99, completed := true,
        actual_duration_minutes := some 45, actual_repetitions := none } rfl).2.2.2
      (by decide)

/-! ## Leaderboard (`PlanMemberService.get_plan_leaderboard`) -/

/-- Leaderboard entry (`src/api/schemas/plan_member_schemas.py`,
`LeaderboardEntry`).  `user_name`, `user_email` and `last_execution_date`
are presentation fields carrying no aggregation logic and are omitted. -/
structure LeaderboardEntry where
  user_id : Nat
  total_executions : Nat
  avg_completion_rate : ℚ
  completion_rate_rank : Nat
  execution_count_rank : Nat
deriving DecidableEq, Repr

/-- `PlanMemberService.get_plan_members`: all member rows of a plan. -/
def get_plan_members (membersTable : List PlanMember) (plan_id : Nat) : List PlanMember :=
  membersTable.filter (fun m => m.plan_id == plan_id)

/-- The `completion_rates` list built by `get_plan_leaderboard`
(`plan_member_service.py` lines 188-211): for each execution the
per-exercise rates are computed (same branch structure as the execution
calculator, see `exerciseCompletionRate`), and the execution's mean is
appended only `if exercise_rates:` — an execution with zero exercise
executions is skipped, it does not contribute a 0. -/
def participantCompletionRates (planExercises : List Exercise) :
    List PlanExecution → List ℚ
  | [] => []
  | pe :: rest =>
    let exercise_rates := pe.exercise_executions.map (exerciseCompletionRate planExercises)
    if exercise_rates.isEmpty then participantCompletionRates planExercises rest
    else (exercise_rates.sum / (exercise_rates.length : ℚ)) ::
      participantCompletionRates planExercises rest

/-- One pre-ranking leaderboard entry for one participant
(`plan_member_service.py` lines 156-224): the participant's executions of
the plan are fetched; with none, a zeroed entry is produced; otherwise
`avg_rate = sum(completion_rates) / len(completion_rates) if
completion_rates else 0`.  The `ORDER BY execution_date DESC` in the source
only affects `last_execution_date` (not modelled); the mean is unaffected
by the order, so executions are processed in table order. -/
def leaderboardBaseEntry (planExercises : List Exercise)
    (executionsDB : List PlanExecution) (plan_id uid : Nat) : LeaderboardEntry :=
  let executions := executionsDB.filter
    (fun e => e.plan_id == plan_id && e.user_id == uid)
  if executions.length == 0 then
    { user_id := uid, total_executions := 0, avg_completion_rate := 0,
      completion_rate_rank := 0, execution_count_rank := 0 }
  else
    let completion_rates := participantCompletionRates planExercises executions
    let avg_rate : ℚ :=
      if completion_rates.isEmpty then 0
      else completion_rates.sum / (completion_rates.length : ℚ)
    { user_id := uid, total_executions := executions.length,
      avg_completion_rate := avg_rate,
      completion_rate_rank := 0, execution_count_rank := 0 }

/-- Insertion-keeping-first-occurrence deduplication: the key order of the
Python `participants` dict (keys are inserted owner first, then members in
list order; re-inserting an existing key keeps its position). -/
def dedupKeepFirst : List Nat → List Nat
  | [] => []
  | x :: xs => x :: dedupKeepFirst (xs.filter (fun y => y != x))
termination_by l => l.length
decreasing_by
  simp only [List.length_cons]
  exact Nat.lt_succ_of_le (List.length_filter_le _ _)

/-- Keys of the `participants` dict: the plan owner followed by the invited
members, first occurrence kept. -/
def participantIds (plan : FitnessPlan) (members : List PlanMember) : List Nat :=
  dedupKeepFirst (plan.user_id :: members.map (fun m => m.user_id))

/-- Sort key of `leaderboard_by_rate = sorted(leaderboard, key=lambda x:
x.avg_completion_rate, reverse=True)`. -/
def rateGE (a b : LeaderboardEntry) : Prop :=
  b.avg_completion_rate ≤ a.avg_completion_rate

instance : DecidableRel rateGE := fun a b =>
  inferInstanceAs (Decidable (b.avg_completion_rate ≤ a.avg_completion_rate))

instance : IsTotal LeaderboardEntry rateGE :=
  ⟨fun a b => le_total b.avg_completion_rate a.avg_completion_rate⟩

instance : IsTrans LeaderboardEntry rateGE :=
  ⟨fun _ _ _ h1 h2 => le_trans h2 h1⟩

/-- Sort key of `leaderboard_by_count = sorted(leaderboard, key=lambda x:
x.total_executions, reverse=True)`. -/
def countGE (a b : LeaderboardEntry) : Prop :=
  b.total_executions ≤ a.total_executions

instance : DecidableRel countGE := fun a b =>
  inferInstanceAs (Decidable (b.total_executions ≤ a.total_executions))

instance : IsTotal LeaderboardEntry countGE :=
  ⟨fun a b => le_total b.total_executions a.total_executions⟩

instance : IsTrans LeaderboardEntry countGE :=
  ⟨fun _ _ _ h1 h2 => le_trans h2 h1⟩

/-- `for i, entry in enumerate(leaderboard_by_rate, start=1):
entry.completion_rate_rank = i`. -/
def setCompletionRanks : Nat → List LeaderboardEntry → List LeaderboardEntry
  | _, [] => []
  | i, e :: rest =>
    { e with completion_rate_rank := i } :: setCompletionRanks (i + 1) rest

/-- `PlanMemberService.get_plan_leaderboard` (`plan_member_service.py`
lines 110-240).  Python's stable `sorted(..., reverse=True)` is modelled by
`List.insertionSort` with the corresponding total preorder (both are
stable).  The in-place rank mutation of entry objects is modelled by
identifying an entry with its `user_id`, which is valid because the
participants are dict keys and hence pairwise distinct
(`participantIds_nodup` below): `execution_count_rank` of an entry is one
plus its position in the count-sorted order. -/
def get_plan_leaderboard (plan : FitnessPlan) (planExercises : List Exercise)
    (membersTable : List PlanMember) (executionsDB : List PlanExecution) :
    List LeaderboardEntry :=
  let members := get_plan_members membersTable plan.id
  let leaderboard := (participantIds plan members).map
    (leaderboardBaseEntry planExercises executionsDB plan.id)
  let leaderboard_by_rate := setCompletionRanks 1 (List.insertionSort rateGE leaderboard)
  let countOrder := (List.insertionSort countGE leaderboard).map (fun e => e.user_id)
  leaderboard_by_rate.map
    (fun e => { e with execution_count_rank := countOrder.indexOf e.user_id + 1 })

/-- `Modelled from the spec:` the average completion rate claim C1 ascribes
to the leaderboard — the arithmetic mean over all of a participant's
executions where an execution with zero exercise executions contributes an
overall rate of 0 (`executionCompletionRate` is 0 there), and 0.0 with no
executions.  Defined only to compare against the code's behaviour. -/
def specAvgCompletionRate (planExercises : List Exercise)
    (execs : List PlanExecution) : ℚ :=
  if execs = [] then 0
  else listMean (execs.map (executionCompletionRate planExercises))

theorem mem_dedupKeepFirst {a : Nat} :
    ∀ {l : List Nat}, a ∈ dedupKeepFirst l → a ∈ l := by
  intro l
  induction l using dedupKeepFirst.induct with
  | case1 => simp [dedupKeepFirst]
  | case2 x xs ih =>
    intro h
    rw [dedupKeepFirst] at h
    rcases List.mem_cons.mp h with h | h
    · exact h ▸ List.mem_cons_self _ _
    · exact List.mem_cons_of_mem _ (List.mem_of_mem_filter (ih h))

theorem dedupKeepFirst_nodup : ∀ (l : List Nat), (dedupKeepFirst l).Nodup := by
  intro l
  induction l using dedupKeepFirst.induct with
  | case1 => simp [dedupKeepFirst]
  | case2 x xs ih =>
    rw [dedupKeepFirst]
    refine List.nodup_cons.mpr ⟨?_, ih⟩
    intro hmem
    have := List.of_mem_filter (mem_dedupKeepFirst hmem)
    simp at this

theorem participantIds_nodup (plan : FitnessPlan) (members : List PlanMember) :
    (participantIds plan members).Nodup :=
  dedupKeepFirst_nodup _

/-- The inline `completion_rates` loop of the leaderboard equals the
execution-level calculator applied to the executions that have at least one
exercise execution. -/
theorem participantCompletionRates_eq_filter_map
    (planExercises : List Exercise) (execs : List PlanExecution) :
    participantCompletionRates planExercises execs =
      (execs.filter (fun x => !x.exercise_executions.isEmpty)).map
        (executionCompletionRate planExercises) := by
  induction execs with
  | nil => rfl
  | cons pe rest ih =>
    rw [participantCompletionRates, List.filter_cons]
    by_cases h : pe.exercise_executions = []
    · simp [h, ih]
    · have hne : (pe.exercise_executions.map
          (exerciseCompletionRate planExercises)).isEmpty = false := by
        simp [List.isEmpty_iff, h]
      have hcond : (!pe.exercise_executions.isEmpty) = true := by
        simp [List.isEmpty_iff, h]
      simp only [hne, Bool.false_eq_true, if_false, hcond, if_true, List.map_cons]
      rw [ih]
      congr 1
      rw [executionCompletionRate]
      simp [hne]

/-- Every leaderboard entry carries the `user_id`, `total_executions` and
`avg_completion_rate` of the pre-ranking base entry for its user. -/
theorem leaderboard_entry_eq_base
    (plan : FitnessPlan) (planExercises : List Exercise)
    (membersTable : List PlanMember) (executionsDB : List PlanExecution)
    (e : LeaderboardEntry)
    (he : e ∈ get_plan_leaderboard plan planExercises membersTable executionsDB) :
    e.user_id = (leaderboardBaseEntry planExercises executionsDB plan.id e.user_id).user_id ∧
    e.total_executions =
      (leaderboardBaseEntry planExercises executionsDB plan.id e.user_id).total_executions ∧
    e.avg_completion_rate =
      (leaderboardBaseEntry planExercises executionsDB plan.id e.user_id).avg_completion_rate := by
  have hbase_uid : ∀ uid, (leaderboardBaseEntry planExercises executionsDB plan.id uid).user_id = uid := by
    intro uid
    rw [leaderboardBaseEntry]
    by_cases h : (executionsDB.filter
        (fun x => x.plan_id == plan.id && x.user_id == uid)).length == 0 <;> simp [h]
  rw [get_plan_leaderboard] at he
  simp only [List.mem_map] at he
  obtain ⟨e1, he1, rfl⟩ := he
  have hfields : ∀ i l, ∀ x ∈ setCompletionRanks i l,
      ∃ y ∈ l, x.user_id = y.user_id ∧ x.total_executions = y.total_executions ∧
        x.avg_completion_rate = y.avg_completion_rate := by
    intro i l
    induction l generalizing i with
    | nil => simp [setCompletionRanks]
    | cons y ys ih =>
      intro x hx
      rw [setCompletionRanks] at hx
      rcases List.mem_cons.mp hx with h | h
      · exact ⟨y, List.mem_cons_self _ _, by simp [h]⟩
      · obtain ⟨z, hz, hf⟩ := ih _ x h
        exact ⟨z, List.mem_cons_of_mem _ hz, hf⟩
  obtain ⟨y, hy, hfu, hft, hfa⟩ := hfields _ _ e1 he1
  have hy2 : y ∈ (participantIds plan (get_plan_members membersTable plan.id)).map
      (leaderboardBaseEntry planExercises executionsDB plan.id) :=
    (List.perm_insertionSort rateGE _).mem_iff.mp hy
  simp only [List.mem_map] at hy2
  obtain ⟨uid, _, rfl⟩ := hy2
  have huid : e1.user_id = uid := hfu.trans (hbase_uid uid)
  refine ⟨?_, ?_, ?_⟩
  · show e1.user_id =
      (leaderboardBaseEntry planExercises executionsDB plan.id e1.user_id).user_id
    rw [huid, hbase_uid]
  · show e1.total_executions =
      (leaderboardBaseEntry planExercises executionsDB plan.id e1.user_id).total_executions
    rw [huid]; exact hft
  · show e1.avg_completion_rate =
      (leaderboardBaseEntry planExercises executionsDB plan.id e1.user_id).avg_completion_rate
    rw [huid]; exact hfa

theorem ifMean_eq (l : List ℚ) :
    (if l.isEmpty then (0 : ℚ) else l.sum / (l.length : ℚ)) =
      if l = [] then 0 else listMean l := by
  cases l <;> simp [listMean]

/-- C1 (amended): every leaderboard entry's `avg_completion_rate` is the
arithmetic mean of the overall completion rates of the participant's
executions that have at least one ExerciseExecution; executions with zero
ExerciseExecutions are skipped (they do not contribute a 0), and a
participant none of whose executions counts gets 0.0. -/
theorem leaderboard_avg_completion_rate
    (plan : FitnessPlan) (planExercises : List Exercise)
    (membersTable : List PlanMember) (executionsDB : List PlanExecution)
    (e : LeaderboardEntry)
    (he : e ∈ get_plan_leaderboard plan planExercises membersTable executionsDB) :
    e.avg_completion_rate =
      (if ((executionsDB.filter
          (fun x => x.plan_id == plan.id && x.user_id == e.user_id)).filter
            (fun x => !x.exercise_executions.isEmpty)).map
          (executionCompletionRate planExercises) = [] then 0
       else listMean (((executionsDB.filter
          (fun x => x.plan_id == plan.id && x.user_id == e.user_id)).filter
            (fun x => !x.exercise_executions.isEmpty)).map
          (executionCompletionRate planExercises))) := by
  obtain ⟨-, -, havg⟩ :=
    leaderboard_entry_eq_base plan planExercises membersTable executionsDB e he
  rw [havg, leaderboardBaseEntry]
  by_cases h : (executionsDB.filter
      (fun x => x.plan_id == plan.id && x.user_id == e.user_id)).length == 0
  · have h0 : executionsDB.filter
        (fun x => x.plan_id == plan.id && x.user_id == e.user_id) = [] := by
      simpa [List.length_eq_zero] using h
    simp [h, h0]
  · simp only [h, Bool.false_eq_true, if_false]
    rw [participantCompletionRates_eq_filter_map]
    exact ifMean_eq _

/-- Plan used by the concrete leaderboard counterexample and witnesses:
owner 10, no members. -/
def cexPlan : FitnessPlan :=
  { id := 1, user_id := 10, name := "p", description := none, deleted := false }

/-- Two executions by the owner: one whose single exercise execution is
fully credited (rate 100), and one with zero exercise executions. -/
def cexExecs : List PlanExecution :=
  [ { id := 1, plan_id := 1, user_id := 10, execution_date := 5,
      exercise_executions :=
        [ { id := 1, exercise_id := 1, completed := true,
            actual_duration_minutes := none, actual_repetitions := none } ] },
    { id := 2, plan_id := 1, user_id := 10, execution_date := 6,
      exercise_executions := [] } ]

def cexEntry : LeaderboardEntry :=
  { user_id := 10, total_executions := 2, avg_completion_rate := 100,
    completion_rate_rank := 1, execution_count_rank := 1 }

theorem cex_leaderboard_eval :
    get_plan_leaderboard cexPlan sampleExercises [] cexExecs = [cexEntry] := by
  norm_num [get_plan_leaderboard, get_plan_members, participantIds, dedupKeepFirst,
    leaderboardBaseEntry, participantCompletionRates, exerciseCompletionRate, truthy,
    setCompletionRanks, List.insertionSort, List.orderedInsert, List.indexOf,
    cexPlan, cexExecs, cexEntry, sampleExercises, List.filter]
  decide

/-- Counterexample to C1 as stated: for the participant with executions
`cexExecs` (one execution of rate 100, one with zero ExerciseExecutions),
the code reports `avg_completion_rate = 100` — the zero-ExerciseExecution
execution is skipped — while the claimed mean, where such an execution
contributes an overall rate of 0, is `(100 + 0) / 2 = 50`. -/
theorem leaderboard_avg_completion_rate_counterexample :
    cexEntry ∈ get_plan_leaderboard cexPlan sampleExercises [] cexExecs ∧
    cexEntry.avg_completion_rate = 100 ∧
    specAvgCompletionRate sampleExercises
      (cexExecs.filter
        (fun x => x.plan_id == cexPlan.id && x.user_id == cexEntry.user_id)) = 50 := by
  refine ⟨by rw [cex_leaderboard_eval]; exact List.mem_singleton.mpr rfl, rfl, ?_⟩
  norm_num [specAvgCompletionRate, listMean, executionCompletionRate,
    exerciseCompletionRate, truthy, cexExecs, cexPlan, cexEntry, sampleExercises,
    List.filter]
  decide

/-- Witness for the amended C1 at the concrete leaderboard `cexEntry`. -/
theorem leaderboard_avg_completion_rate_witness :
    cexEntry ∈ get_plan_leaderboard cexPlan sampleExercises [] cexExecs ∧
    cexEntry.avg_completion_rate =
      (if ((cexExecs.filter
          (fun x => x.plan_id == cexPlan.id && x.user_id == cexEntry.user_id)).filter
            (fun x => !x.exercise_executions.isEmpty)).map
          (executionCompletionRate sampleExercises) = [] then 0
       else listMean (((cexExecs.filter
          (fun x => x.plan_id == cexPlan.id && x.user_id == cexEntry.user_id)).filter
            (fun x => !x.exercise_executions.isEmpty)).map
          (executionCompletionRate sampleExercises))) := by
  have hmem : cexEntry ∈ get_plan_leaderboard cexPlan sampleExercises [] cexExecs := by
    rw [cex_leaderboard_eval]; exact List.mem_singleton.mpr rfl
  exact ⟨hmem,
    leaderboard_avg_completion_rate cexPlan sampleExercises [] cexExecs cexEntry hmem⟩

/-! ## Leaderboard ranking (claim C8) -/

theorem leaderboardBaseEntry_user_id (planExercises : List Exercise)
    (executionsDB : List PlanExecution) (plan_id uid : Nat) :
    (leaderboardBaseEntry planExercises executionsDB plan_id uid).user_id = uid := by
  rw [leaderboardBaseEntry]
  by_cases h : (executionsDB.filter
      (fun x => x.plan_id == plan_id && x.user_id == uid)).length == 0 <;> simp [h]

theorem setCompletionRanks_map_rank :
    ∀ (i : Nat) (l : List LeaderboardEntry),
      (setCompletionRanks i l).map (fun e => e.completion_rate_rank) =
        List.range' i l.length := by
  intro i l
  induction l generalizing i with
  | nil => rfl
  | cons e rest ih => simp [setCompletionRanks, ih, List.range'_succ]

/-- `setCompletionRanks` only touches `completion_rate_rank`; any
observation insensitive to that field is preserved. -/
theorem setCompletionRanks_map {β : Type} (f : LeaderboardEntry → β)
    (hf : ∀ e i, f { e with completion_rate_rank := i } = f e) :
    ∀ (i : Nat) (l : List LeaderboardEntry),
      (setCompletionRanks i l).map f = l.map f := by
  intro i l
  induction l generalizing i with
  | nil => rfl
  | cons e rest ih => simp [setCompletionRanks, ih, hf]

theorem setCompletionRanks_length (i : Nat) (l : List LeaderboardEntry) :
    (setCompletionRanks i l).length = l.length := by
  induction l generalizing i with
  | nil => rfl
  | cons e rest ih => simp [setCompletionRanks, ih]

/-- Over a duplicate-free list, mapping every element to its own index
enumerates `0, 1, ..., n-1`. -/
theorem map_indexOf_self : ∀ {l : List Nat}, l.Nodup →
    l.map (fun x => l.indexOf x) = List.range l.length := by
  intro l
  induction l with
  | nil => simp
  | cons x xs ih =>
    intro hnd
    obtain ⟨hx, hxs⟩ := List.nodup_cons.mp hnd
    have hmap : xs.map (fun y => List.indexOf y (x :: xs)) =
        (xs.map (fun y => List.indexOf y xs)).map Nat.succ := by
      rw [List.map_map]
      refine List.map_congr_left ?_
      intro y hy
      have hne : x ≠ y := fun h => hx (h ▸ hy)
      simp [List.indexOf_cons_ne _ hne]
    simp only [List.map_cons, List.indexOf_cons_self, List.length_cons,
      List.range_succ_eq_map, hmap, ih hxs]

/-- `entry.execution_count_rank = i` for `i` the 1-based position of the
entry's user in the count-descending order. -/
def setExecutionRank (countOrder : List Nat) (e : LeaderboardEntry) : LeaderboardEntry :=
  { e with execution_count_rank := countOrder.indexOf e.user_id + 1 }

theorem setExecutionRank_user_id (co : List Nat) (e : LeaderboardEntry) :
    (setExecutionRank co e).user_id = e.user_id := rfl

theorem setExecutionRank_total (co : List Nat) (e : LeaderboardEntry) :
    (setExecutionRank co e).total_executions = e.total_executions := rfl

theorem setExecutionRank_avg (co : List Nat) (e : LeaderboardEntry) :
    (setExecutionRank co e).avg_completion_rate = e.avg_completion_rate := rfl

theorem setExecutionRank_crank (co : List Nat) (e : LeaderboardEntry) :
    (setExecutionRank co e).completion_rate_rank = e.completion_rate_rank := rfl

theorem setExecutionRank_rank (co : List Nat) (e : LeaderboardEntry) :
    (setExecutionRank co e).execution_count_rank = co.indexOf e.user_id + 1 := rfl

/-- The rank-assignment tail of `get_plan_leaderboard` as a function of the
pre-ranking `leaderboard` list (the last four statements of the Python
function, see `get_plan_leaderboard`). -/
def assignRanks (lb : List LeaderboardEntry) : List LeaderboardEntry :=
  (setCompletionRanks 1 (List.insertionSort rateGE lb)).map
    (setExecutionRank ((List.insertionSort countGE lb).map (fun x => x.user_id)))

theorem get_plan_leaderboard_eq_assignRanks (plan : FitnessPlan)
    (planExercises : List Exercise) (membersTable : List PlanMember)
    (executionsDB : List PlanExecution) :
    get_plan_leaderboard plan planExercises membersTable executionsDB =
      assignRanks ((participantIds plan (get_plan_members membersTable plan.id)).map
        (leaderboardBaseEntry planExercises executionsDB plan.id)) := rfl

/-- In a list sorted by execution count descending with pairwise-distinct
user ids, a strictly greater execution count means a strictly earlier
position of the user id. -/
theorem indexOf_lt_of_count_gt :
    ∀ (S : List LeaderboardEntry), List.Pairwise countGE S →
      (S.map (fun e => e.user_id)).Nodup →
      ∀ a ∈ S, ∀ b ∈ S, b.total_executions < a.total_executions →
        (S.map (fun e => e.user_id)).indexOf a.user_id <
          (S.map (fun e => e.user_id)).indexOf b.user_id := by
  intro S
  induction S with
  | nil => simp
  | cons s rest ih =>
    intro hpw hnd a ha b hb hcount
    obtain ⟨hs, hpw'⟩ := List.pairwise_cons.mp hpw
    rw [List.map_cons] at hnd
    obtain ⟨hnd1, hnd'⟩ := List.nodup_cons.mp hnd
    rcases List.mem_cons.mp ha with rfl | ha'
    · rcases List.mem_cons.mp hb with rfl | hb'
      · exact absurd hcount (lt_irrefl _)
      · have hbu : b.user_id ≠ a.user_id := by
          intro h
          exact hnd1 (h ▸ List.mem_map_of_mem _ hb')
        rw [List.map_cons, List.indexOf_cons_self,
          List.indexOf_cons_ne _ (fun h => hbu h.symm)]
        exact Nat.succ_pos _
    · rcases List.mem_cons.mp hb with rfl | hb'
      · have := hs a ha'
        rw [countGE] at this
        omega
      · have hau : s.user_id ≠ a.user_id := by
          intro h
          exact hnd1 (h.symm ▸ List.mem_map_of_mem _ ha')
        have hbu : s.user_id ≠ b.user_id := by
          intro h
          exact hnd1 (h.symm ▸ List.mem_map_of_mem _ hb')
        rw [List.map_cons, List.indexOf_cons_ne _ hau, List.indexOf_cons_ne _ hbu]
        exact Nat.succ_lt_succ (ih hpw' hnd' a ha' b hb' hcount)

/-- Core property of the rank assignment, for any pre-ranking leaderboard
whose `user_id`s are pairwise distinct: completion ranks are exactly
`1..N` along the returned (rate-descending) order, execution ranks are a
permutation of `1..N` and strictly follow execution count descending, and
the list is sorted by average completion rate descending. -/
theorem rank_assignment_spec (lb : List LeaderboardEntry)
    (hnd : (lb.map (fun e => e.user_id)).Nodup) :
    (assignRanks lb).map (fun e => e.completion_rate_rank) =
      List.range' 1 lb.length ∧
    ((assignRanks lb).map (fun e => e.execution_count_rank)).Perm
      (List.range' 1 lb.length) ∧
    (assignRanks lb).Pairwise
      (fun a b => b.avg_completion_rate ≤ a.avg_completion_rate) ∧
    (∀ a ∈ assignRanks lb, ∀ b ∈ assignRanks lb,
      b.total_executions < a.total_executions →
        a.execution_count_rank < b.execution_count_rank) ∧
    (assignRanks lb).length = lb.length := by
  rw [assignRanks]
  set S := List.insertionSort countGE lb with hS
  set R := List.insertionSort rateGE lb with hR
  set countOrder := S.map (fun x => x.user_id) with hCO
  set byRate := setCompletionRanks 1 R with hBR
  set L := byRate.map (setExecutionRank countOrder) with hL
  have hRlen : R.length = lb.length := (List.perm_insertionSort rateGE lb).length_eq
  have hSlen : S.length = lb.length := (List.perm_insertionSort countGE lb).length_eq
  have hBRlen : byRate.length = R.length := setCompletionRanks_length 1 R
  have hLlen : L.length = lb.length := by
    simp [hL, hBRlen, hRlen]
  -- user ids of the two sorted lists are permutations of the base ids
  have hRuid : byRate.map (fun e => e.user_id) = R.map (fun e => e.user_id) :=
    setCompletionRanks_map (fun e => e.user_id) (fun _ _ => rfl) 1 R
  have hRperm : (R.map (fun e => e.user_id)).Perm (lb.map (fun e => e.user_id)) :=
    (List.perm_insertionSort rateGE lb).map _
  have hSperm : countOrder.Perm (lb.map (fun e => e.user_id)) :=
    (List.perm_insertionSort countGE lb).map _
  have hCOnodup : countOrder.Nodup := hSperm.symm.nodup hnd
  have hCOlen : countOrder.length = lb.length := by simp [hCO, hSlen]
  refine ⟨?_, ?_, ?_, ?_, hLlen⟩
  · -- completion ranks are exactly 1..N
    have : L.map (fun e => e.completion_rate_rank) =
        byRate.map (fun e => e.completion_rate_rank) := by
      rw [hL, List.map_map]
      simp only [Function.comp_def, setExecutionRank_crank]
    rw [this, hBR, setCompletionRanks_map_rank, hRlen]
  · -- execution ranks are a permutation of 1..N
    have h1 : L.map (fun e => e.execution_count_rank) =
        (byRate.map (fun e => e.user_id)).map
          (fun u => countOrder.indexOf u + 1) := by
      rw [hL, List.map_map, List.map_map]
      simp only [Function.comp_def, setExecutionRank_rank]
    have h2 : (byRate.map (fun e => e.user_id)).Perm countOrder := by
      rw [hRuid]
      exact hRperm.trans hSperm.symm
    have h3 : (L.map (fun e => e.execution_count_rank)).Perm
        (countOrder.map (fun u => countOrder.indexOf u + 1)) := by
      rw [h1]; exact h2.map _
    have h4 : countOrder.map (fun u => countOrder.indexOf u + 1) =
        List.range' 1 lb.length := by
      have hm : countOrder.map (fun u => countOrder.indexOf u + 1) =
          (countOrder.map (fun u => countOrder.indexOf u)).map (fun x => x + 1) :=
        (List.map_map _ _ _).symm
      rw [hm, map_indexOf_self hCOnodup, hCOlen, List.range'_eq_map_range]
      exact List.map_congr_left (fun x _ => by omega)
    exact h4 ▸ h3
  · -- sorted by average completion rate descending
    have hsorted : List.Pairwise rateGE R := List.sorted_insertionSort rateGE lb
    have hmapR : L.map (fun e => e.avg_completion_rate) =
        R.map (fun e => e.avg_completion_rate) := by
      rw [hL, List.map_map]
      simp only [Function.comp_def, setExecutionRank_avg]
      exact setCompletionRanks_map (fun e => e.avg_completion_rate) (fun _ _ => rfl) 1 R
    have hpw : List.Pairwise (fun a b : ℚ => b ≤ a)
        (L.map (fun e => e.avg_completion_rate)) := by
      rw [hmapR]
      exact List.pairwise_map.mpr hsorted
    exact List.pairwise_map.mp hpw
  · -- execution ranks follow execution count descending
    intro a ha b hb hcount
    -- entries of L carry the user id and execution count of an entry of lb
    have hfield : ∀ x ∈ L, ∃ y ∈ lb, x.user_id = y.user_id ∧
        x.total_executions = y.total_executions ∧
        x.execution_count_rank = countOrder.indexOf y.user_id + 1 := by
      intro x hx
      rw [hL] at hx
      obtain ⟨x1, hx1, rfl⟩ := List.mem_map.mp hx
      have : ∀ i l, ∀ z ∈ setCompletionRanks i l, ∃ y ∈ l,
          z.user_id = y.user_id ∧ z.total_executions = y.total_executions := by
        intro i l
        induction l generalizing i with
        | nil => simp [setCompletionRanks]
        | cons y ys ih =>
          intro z hz
          rcases List.mem_cons.mp hz with h | h
          · exact ⟨y, List.mem_cons_self _ _, by simp [h]⟩
          · obtain ⟨w, hw, hf⟩ := ih _ z h
            exact ⟨w, List.mem_cons_of_mem _ hw, hf⟩
      obtain ⟨y, hy, hyu, hyt⟩ := this 1 R x1 hx1
      exact ⟨y, (List.perm_insertionSort rateGE lb).mem_iff.mp hy,
        by rw [setExecutionRank_user_id]; exact hyu,
        by rw [setExecutionRank_total]; exact hyt,
        by rw [setExecutionRank_rank, hyu]⟩
    obtain ⟨ya, hya, hau, hat, har⟩ := hfield a ha
    obtain ⟨yb, hyb, hbu, hbt, hbr⟩ := hfield b hb
    rw [har, hbr]
    have hsorted : List.Pairwise countGE S := List.sorted_insertionSort countGE lb
    have hya' : ya ∈ S := (List.perm_insertionSort countGE lb).mem_iff.mpr hya
    have hyb' : yb ∈ S := (List.perm_insertionSort countGE lb).mem_iff.mpr hyb
    have hndS : (S.map (fun e => e.user_id)).Nodup := by
      rw [← hCO]; exact hCOnodup
    have hlt := indexOf_lt_of_count_gt S hsorted hndS ya hya' yb hyb' (by omega)
    rw [hCO]
    omega

/-- C8: for every leaderboard over the plan's participants (owner plus
members), the `completion_rate_rank` values are exactly `1..N` along the
returned list (which is ordered by average completion rate descending), the
`execution_count_rank` values are independently a permutation of `1..N`
assigned by total execution count descending, and the list has one entry
per participant. -/
theorem leaderboard_ranks (plan : FitnessPlan) (planExercises : List Exercise)
    (membersTable : List PlanMember) (executionsDB : List PlanExecution) :
    (get_plan_leaderboard plan planExercises membersTable executionsDB).map
        (fun e => e.completion_rate_rank) =
      List.range' 1 (get_plan_leaderboard plan planExercises membersTable
        executionsDB).length ∧
    ((get_plan_leaderboard plan planExercises membersTable executionsDB).map
        (fun e => e.execution_count_rank)).Perm
      (List.range' 1 (get_plan_leaderboard plan planExercises membersTable
        executionsDB).length) ∧
    (get_plan_leaderboard plan planExercises membersTable executionsDB).Pairwise
      (fun a b => b.avg_completion_rate ≤ a.avg_completion_rate) ∧
    (∀ a ∈ get_plan_leaderboard plan planExercises membersTable executionsDB,
     ∀ b ∈ get_plan_leaderboard plan planExercises membersTable executionsDB,
      b.total_executions < a.total_executions →
        a.execution_count_rank < b.execution_count_rank) ∧
    (get_plan_leaderboard plan planExercises membersTable executionsDB).length =
      (participantIds plan (get_plan_members membersTable plan.id)).length := by
  have hb : (((participantIds plan (get_plan_members membersTable plan.id)).map
      (leaderboardBaseEntry planExercises executionsDB plan.id)).map
        (fun e => e.user_id)).Nodup := by
    rw [List.map_map]
    have hcomp : ((fun e : LeaderboardEntry => e.user_id) ∘
        leaderboardBaseEntry planExercises executionsDB plan.id) = id := by
      funext uid
      simp [Function.comp, leaderboardBaseEntry_user_id]
    rw [hcomp, List.map_id]
    exact participantIds_nodup plan (get_plan_members membersTable plan.id)
  obtain ⟨h1, h2, h3, h4, h5⟩ := rank_assignment_spec _ hb
  rw [get_plan_leaderboard_eq_assignRanks, h5, List.length_map]
  refine ⟨?_, ?_, h3, h4, rfl⟩
  · rw [h1, List.length_map]
  · rw [List.length_map] at h2
    exact h2

/-! ## Database state and service operations -/

structure TimeOfDay where
  hour : Nat
  minute : Nat
  second : Nat
deriving DecidableEq, Repr

/-- `ReminderFrequency` (`src/models/reminder.py`). -/
inductive ReminderFrequency where
  | daily
  | weekly
  | custom
deriving DecidableEq, Repr

/-- Row of table `reminder` (`src/models/reminder.py`). -/
structure Reminder where
  id : Nat
  plan_id : Nat
  reminder_time : TimeOfDay
  frequency : ReminderFrequency
  days_of_week : Option (List Nat)
  is_enabled : Bool
deriving DecidableEq, Repr

/-- The relational store the services run against. -/
structure DB where
  plans : List FitnessPlan
  exercises : List Exercise
  reminders : List Reminder
  members : List PlanMember
  users : List User
  executions : List PlanExecution
deriving DecidableEq, Repr

/-- Modify the first element satisfying `P`: the ORM mutates the single row
returned by the query and leaves the rest of the table unchanged. -/
def replaceFirst {α : Type} (P : α → Bool) (f : α → α) : List α → List α
  | [] => []
  | x :: xs => if P x then f x :: xs else x :: replaceFirst P f xs

/-- The `FitnessPlan.id.in_(select(PlanMember.plan_id).where(
PlanMember.user_id == user_id))` membership subquery. -/
def isMemberOf (db : DB) (user_id pid : Nat) : Bool :=
  db.members.any (fun m => m.plan_id == pid && m.user_id == user_id)

/-- Row predicate of the `PlanService.get_plan_by_id` query: matching id,
owner or member, not soft-deleted. -/
def planAccessPred (db : DB) (user_id plan_id : Nat) (p : FitnessPlan) : Bool :=
  p.id == plan_id && (p.user_id == user_id || isMemberOf db user_id p.id) && !p.deleted

/-- `PlanService.get_plan_by_id` (`plan_service.py` lines 119-156). -/
def get_plan_by_id (db : DB) (user_id plan_id : Nat) : Except Err FitnessPlan :=
  match db.plans.find? (planAccessPred db user_id plan_id) with
  | none => .error .notFound
  | some p => .ok p

/-- `FitnessPlanUpdate` payload. -/
structure FitnessPlanUpdate where
  name : Option String
  description : Option String
deriving DecidableEq, Repr

/-- The `model_dump(exclude_unset=True)` + `setattr` loop: provided fields
are written ("explicitly set to null" is not distinguished from "unset"; no
verified claim depends on the distinction). -/
def applyPlanUpdate (d : FitnessPlanUpdate) (p : FitnessPlan) : FitnessPlan :=
  { p with name := d.name.getD p.name,
           description := match d.description with
             | some v => some v
             | none => p.description }

/-- `PlanService.update_plan` (`plan_service.py` lines 158-185): access goes
through `get_plan_by_id`, i.e. owner OR member. -/
def update_plan (db : DB) (user_id plan_id : Nat) (d : FitnessPlanUpdate) :
    Except Err (FitnessPlan × DB) :=
  match get_plan_by_id db user_id plan_id with
  | .error e => .error e
  | .ok p =>
    let p' := applyPlanUpdate d p
    let plans' := replaceFirst (planAccessPred db user_id plan_id) (fun _ => p') db.plans
    .ok (p', { db with plans := plans' })

/-- `PlanService.delete_plan` (`plan_service.py` lines 187-215): access
through `get_plan_by_id` (owner OR member), then soft delete; reminder-job
cancellation against the external scheduler is a side effect outside the
store. -/
def delete_plan (db : DB) (user_id plan_id : Nat) : Except Err DB :=
  match get_plan_by_id db user_id plan_id with
  | .error e => .error e
  | .ok _ =>
    let plans' := replaceFirst (planAccessPred db user_id plan_id)
      (fun p => { p with deleted := true }) db.plans
    .ok { db with plans := plans' }

/-- Row predicate of the owned-plan query used by
`ExerciseService.add_exercise` and `ReminderService.create_reminder`:
matching id, owned by the caller, not soft-deleted. -/
def ownedPlanPred (user_id plan_id : Nat) (p : FitnessPlan) : Bool :=
  p.id == plan_id && p.user_id == user_id && !p.deleted

/-- `ExerciseCreate` payload (`plan_schemas.py`); `intensity` carries no
logic and is omitted. -/
structure ExerciseCreate where
  name : String
  duration_minutes : Option Nat
  repetitions : Option Nat
  order_index : Nat
deriving DecidableEq, Repr

/-- `ExerciseService.add_exercise` (`exercise_service.py` lines 20-66);
the uuid4 row id is passed in as `newEid`. -/
def add_exercise (db : DB) (user_id plan_id : Nat) (d : ExerciseCreate)
    (newEid : Nat) : Except Err (Exercise × DB) :=
  match db.plans.find? (ownedPlanPred user_id plan_id) with
  | none => .error .notFound
  | some _ =>
    let ex : Exercise :=
      { id := newEid, plan_id := plan_id, name := d.name,
        duration_minutes := d.duration_minutes, repetitions := d.repetitions,
        order_index := d.order_index }
    .ok (ex, { db with exercises := db.exercises ++ [ex] })

/-- Row predicate of the exercise-with-plan-ownership join used by
`ExerciseService.update_exercise`, `delete_exercise` and
`get_exercise_by_id`. -/
def ownedExercisePred (db : DB) (user_id plan_id exercise_id : Nat) (e : Exercise) : Bool :=
  e.id == exercise_id && e.plan_id == plan_id &&
    db.plans.any (fun p => p.id == e.plan_id && p.user_id == user_id && !p.deleted)

/-- `ExerciseUpdate` payload; `intensity` omitted as above. -/
structure ExerciseUpdate where
  name : Option String
  duration_minutes : Option Nat
  repetitions : Option Nat
  order_index : Option Nat
deriving DecidableEq, Repr

def applyExerciseUpdate (d : ExerciseUpdate) (e : Exercise) : Exercise :=
  { e with name := d.name.getD e.name,
           duration_minutes := match d.duration_minutes with
             | some v => some v
             | none => e.duration_minutes,
           repetitions := match d.repetitions with
             | some v => some v
             | none => e.repetitions,
           order_index := d.order_index.getD e.order_index }

/-- `ExerciseService.update_exercise` (`exercise_service.py` lines 67-110). -/
def update_exercise (db : DB) (user_id plan_id exercise_id : Nat)
    (d : ExerciseUpdate) : Except Err (Exercise × DB) :=
  match db.exercises.find? (ownedExercisePred db user_id plan_id exercise_id) with
  | none => .error .notFound
  | some e =>
    let e' := applyExerciseUpdate d e
    let exercises' := replaceFirst (ownedExercisePred db user_id plan_id exercise_id)
      (fun _ => e') db.exercises
    .ok (e', { db with exercises := exercises' })

/-- `SELECT count(*) FROM exercise WHERE plan_id = ...`. -/
def exerciseCount (db : DB) (plan_id : Nat) : Nat :=
  (db.exercises.filter (fun e => e.plan_id == plan_id)).length

/-- `ExerciseService.delete_exercise` (`exercise_service.py` lines 112-157):
NotFound when the ownership join finds nothing, BusinessRuleViolation when
the plan's exercise count is `<= 1`, otherwise the row is deleted. -/
def delete_exercise (db : DB) (user_id plan_id exercise_id : Nat) : Except Err DB :=
  match db.exercises.find? (ownedExercisePred db user_id plan_id exercise_id) with
  | none => .error .notFound
  | some _ =>
    if exerciseCount db plan_id ≤ 1 then .error .businessRuleViolation
    else
      let exercises' := db.exercises.eraseP (ownedExercisePred db user_id plan_id exercise_id)
      .ok { db with exercises := exercises' }

/-- `ReminderCreate` payload (`reminder_schemas.py`). -/
structure ReminderCreate where
  reminder_time : TimeOfDay
  frequency : ReminderFrequency
  days_of_week : Option (List Nat)
  is_enabled : Bool
deriving DecidableEq, Repr

/-- `ReminderService.create_reminder` (`reminder_service.py` lines 29-82);
scheduler-job registration is a side effect outside the store. -/
def create_reminder (db : DB) (user_id plan_id : Nat) (d : ReminderCreate)
    (newRid : Nat) : Except Err (Reminder × DB) :=
  match db.plans.find? (ownedPlanPred user_id plan_id) with
  | none => .error .notFound
  | some _ =>
    let r : Reminder :=
      { id := newRid, plan_id := plan_id,
        reminder_time := d.reminder_time, frequency := d.frequency,
        days_of_week := d.days_of_week, is_enabled := d.is_enabled }
    .ok (r, { db with reminders := db.reminders ++ [r] })

/-- Row predicate of the reminder-with-plan-ownership join used by
`ReminderService.update_reminder` and `delete_reminder`. -/
def ownedReminderPred (db : DB) (user_id plan_id reminder_id : Nat) (r : Reminder) : Bool :=
  r.id == reminder_id && r.plan_id == plan_id &&
    db.plans.any (fun p => p.id == r.plan_id && p.user_id == user_id && !p.deleted)

structure ReminderUpdate where
  reminder_time : Option TimeOfDay
  frequency : Option ReminderFrequency
  days_of_week : Option (List Nat)
  is_enabled : Option Bool
deriving DecidableEq, Repr

def applyReminderUpdate (d : ReminderUpdate) (r : Reminder) : Reminder :=
  { r with reminder_time := d.reminder_time.getD r.reminder_time,
           frequency := d.frequency.getD r.frequency,
           days_of_week := match d.days_of_week with
             | some v => some v
             | none => r.days_of_week,
           is_enabled := d.is_enabled.getD r.is_enabled }

/-- `ReminderService.update_reminder` (`reminder_service.py` lines 84-143). -/
def update_reminder (db : DB) (user_id plan_id reminder_id : Nat)
    (d : ReminderUpdate) : Except Err (Reminder × DB) :=
  match db.reminders.find? (ownedReminderPred db user_id plan_id reminder_id) with
  | none => .error .notFound
  | some r =>
    let r' := applyReminderUpdate d r
    let reminders' := replaceFirst (ownedReminderPred db user_id plan_id reminder_id)
      (fun _ => r') db.reminders
    .ok (r', { db with reminders := reminders' })

/-- `ReminderService.delete_reminder` (`reminder_service.py` lines 145-183). -/
def delete_reminder (db : DB) (user_id plan_id reminder_id : Nat) : Except Err DB :=
  match db.reminders.find? (ownedReminderPred db user_id plan_id reminder_id) with
  | none => .error .notFound
  | some _ =>
    let reminders' := db.reminders.eraseP (ownedReminderPred db user_id plan_id reminder_id)
    .ok { db with reminders := reminders' }

/-- `PlanMemberService.invite_member` (`plan_member_service.py` lines
26-91).  Despite the comment in the source ("Verify plan exists and inviter
is the owner or a member"), the query checks only that a plan row with the
given id exists — soft-deleted or not — and never reads
`inviter_user_id` except to record it in `invited_by`. -/
def invite_member (db : DB) (plan_id inviter_user_id : Nat)
    (invitee_email : String) (newMid : Nat) : Except Err (PlanMember × DB) :=
  match db.plans.find? (fun p => p.id == plan_id) with
  | none => .error .notFound
  | some _ =>
    match db.users.find? (fun u => u.email == invitee_email) with
    | none => .error .notFound
    | some invitee =>
      match db.members.find?
          (fun m => m.plan_id == plan_id && m.user_id == invitee.id) with
      | some _ => .error .alreadyMember
      | none =>
        let m : PlanMember :=
          { id := newMid, plan_id := plan_id,
            user_id := invitee.id, invited_by := some inviter_user_id }
        .ok (m, { db with members := db.members ++ [m] })

/-- `PlanMemberService.remove_member` (`plan_member_service.py` lines
242-268). -/
def remove_member (db : DB) (plan_id user_id : Nat) : Except Err DB :=
  match db.members.find? (fun m => m.plan_id == plan_id && m.user_id == user_id) with
  | none => .error .notFound
  | some _ =>
    let members' := db.members.eraseP (fun m => m.plan_id == plan_id && m.user_id == user_id)
    .ok { db with members := members' }

/-- `FitnessPlanCreate` payload (`plan_schemas.py`); the boundary validator
rejects an empty exercise list before the service runs. -/
structure FitnessPlanCreate where
  name : String
  description : Option String
  exercises : List ExerciseCreate
deriving DecidableEq, Repr

/-- The `for exercise_data in plan_data.exercises:` loop of
`PlanService.create_plan`: one exercise row per payload entry, all attached
to the new plan. -/
def newPlanExercises (d : FitnessPlanCreate) (newPid newEidBase : Nat) :
    List Exercise :=
  d.exercises.enum.map (fun pr =>
    ({ id := newEidBase + pr.1, plan_id := newPid, name := pr.2.name,
       duration_minutes := pr.2.duration_minutes, repetitions := pr.2.repetitions,
       order_index := pr.2.order_index } : Exercise))

/-- `PlanService.create_plan` (`plan_service.py` lines 20-54); the uuid4
row ids are passed in as `newPid` and `newEidBase + index`. -/
def create_plan (db : DB) (user_id : Nat) (d : FitnessPlanCreate)
    (newPid newEidBase : Nat) : FitnessPlan × DB :=
  let plan : FitnessPlan :=
    { id := newPid, user_id := user_id, name := d.name,
      description := d.description, deleted := false }
  let exs := newPlanExercises d newPid newEidBase
  (plan, { db with plans := db.plans ++ [plan], exercises := db.exercises ++ exs })

/-! ## Reminder schedule translator (`ReminderService._create_cron_trigger`) -/

/-- The trigger description handed to the external scheduler: `day_of_week
= none` is the every-day trigger, `some l` restricts firing to the listed
0-based weekdays (0 = the scheduler's Monday). -/
structure CronTrigger where
  day_of_week : Option (List Int)
  hour : Nat
  minute : Nat
  second : Nat
deriving DecidableEq, Repr

/-- Python truthiness of the `days_of_week` column: `None` and `[]` are
falsy. -/
def truthyDays : Option (List Nat) → Bool
  | none => false
  | some l => !l.isEmpty

/-- `",".join(str((day - 1) % 7) for day in days_of_week)`, kept as the
list of numbers; Python's `%` on a negative left operand is `Int.emod`. -/
def cronDays (days : List Nat) : List Int :=
  days.map (fun d : Nat => ((d : Int) - 1) % 7)

/-- `ReminderService._create_cron_trigger` (`reminder_service.py` lines
248-282). -/
def create_cron_trigger (reminder_time : TimeOfDay)
    (frequency : ReminderFrequency) (days_of_week : Option (List Nat)) :
    CronTrigger :=
  let hour := reminder_time.hour
  let minute := reminder_time.minute
  let second := reminder_time.second
  if frequency = .daily then
    { day_of_week := none, hour := hour, minute := minute, second := second }
  else if frequency = .weekly && truthyDays days_of_week then
    { day_of_week := some (cronDays (days_of_week.getD [])),
      hour := hour, minute := minute, second := second }
  else if frequency = .custom && truthyDays days_of_week then
    { day_of_week := some (cronDays (days_of_week.getD [])),
      hour := hour, minute := minute, second := second }
  else
    { day_of_week := none, hour := hour, minute := minute, second := second }

/-- C7: the reminder schedule translator's case analysis — `daily` yields
the every-day trigger at the given time regardless of any weekday set;
`weekly` or `custom` with a non-empty weekday set yields a trigger
restricted to exactly the 0-based images `(d - 1) % 7` of those weekdays
(so weekday `d` with `1 ≤ d ≤ 7` maps to `d - 1`, in particular 1 to the
scheduler's Monday 0) at the given time; `weekly` or `custom` with no
weekday set falls back to the daily trigger. -/
theorem cron_trigger_cases (t : TimeOfDay) :
    (∀ days, create_cron_trigger t .daily days =
      { day_of_week := none, hour := t.hour, minute := t.minute, second := t.second }) ∧
    (∀ days, days ≠ [] →
      create_cron_trigger t .weekly (some days) =
        { day_of_week := some (cronDays days),
          hour := t.hour, minute := t.minute, second := t.second } ∧
      create_cron_trigger t .custom (some days) =
        { day_of_week := some (cronDays days),
          hour := t.hour, minute := t.minute, second := t.second } ∧
      (∀ c : Int, c ∈ cronDays days ↔ ∃ d ∈ days, c = ((d : Int) - 1) % 7)) ∧
    (∀ d : Nat, 1 ≤ d → d ≤ 7 → ((d : Int) - 1) % 7 = (d : Int) - 1) ∧
    (create_cron_trigger t .weekly none =
      create_cron_trigger t .daily none ∧
     create_cron_trigger t .weekly (some []) =
      create_cron_trigger t .daily none ∧
     create_cron_trigger t .custom none =
      create_cron_trigger t .daily none ∧
     create_cron_trigger t .custom (some []) =
      create_cron_trigger t .daily none) := by
  refine ⟨?_, ?_, ?_, ?_⟩
  · intro days
    simp [create_cron_trigger]
  · intro days hne
    refine ⟨?_, ?_, ?_⟩
    · simp [create_cron_trigger, truthyDays, List.isEmpty_iff, hne]
    · simp [create_cron_trigger, truthyDays, List.isEmpty_iff, hne]
    · intro c
      constructor
      · intro hc
        obtain ⟨d, hd, hfd⟩ := List.mem_map.mp hc
        exact ⟨d, hd, hfd.symm⟩
      · rintro ⟨d, hd, rfl⟩
        exact List.mem_map.mpr ⟨d, hd, rfl⟩
  · intro d h1 h7
    omega
  · exact ⟨rfl, rfl, rfl, rfl⟩

/-- Witness for C7: `weekly` with weekdays `[1, 3, 5]` at 07:30:00 fires on
scheduler days `[0, 2, 4]` (1 maps to Monday 0); `daily` ignores the
weekday set; `custom` with an empty set falls back to daily. -/
theorem cron_trigger_cases_witness :
    create_cron_trigger { hour := 7, minute := 30, second := 0 }
        .weekly (some [1, 3, 5]) =
      { day_of_week := some [0, 2, 4], hour := 7, minute := 30, second := 0 } ∧
    create_cron_trigger { hour := 7, minute := 30, second := 0 }
        .daily (some [1, 3, 5]) =
      { day_of_week := none, hour := 7, minute := 30, second := 0 } ∧
    create_cron_trigger { hour := 7, minute := 30, second := 0 }
        .custom (some []) =
      { day_of_week := none, hour := 7, minute := 30, second := 0 } := by
  have h := cron_trigger_cases { hour := 7, minute := 30, second := 0 }
  refine ⟨?_, h.1 (some [1, 3, 5]), ?_⟩
  · rw [(h.2.1 [1, 3, 5] (by decide)).1]
    decide
  · rw [h.2.2.2.2.2.2]
    exact h.1 none

/-- C9: a user who is neither the owner nor a member of plan `pid` gets the
same NotFound kind from `get_plan_by_id` as for a plan id that matches no
row at all; the two results are identical. -/
theorem plan_access_denied_notfound (db : DB) (u pid : Nat)
    (hown : ∀ q ∈ db.plans, q.id = pid → q.user_id ≠ u)
    (hmem : ∀ m ∈ db.members, m.plan_id = pid → m.user_id ≠ u) :
    get_plan_by_id db u pid = .error .notFound ∧
    ∀ pid2, (∀ q ∈ db.plans, q.id ≠ pid2) →
      get_plan_by_id db u pid2 = .error .notFound ∧
      get_plan_by_id db u pid = get_plan_by_id db u pid2 := by
  have hmem' : isMemberOf db u pid = false := by
    rw [isMemberOf, List.any_eq_false]
    intro m hm
    simp only [Bool.and_eq_true, beq_iff_eq]
    rintro ⟨h1, h2⟩
    exact hmem m hm h1 h2
  have h1 : get_plan_by_id db u pid = .error .notFound := by
    rw [get_plan_by_id]
    have hfind : db.plans.find? (planAccessPred db u pid) = none := by
      refine List.find?_eq_none.mpr ?_
      intro q hq hP
      rw [planAccessPred] at hP
      simp only [Bool.and_eq_true, beq_iff_eq, Bool.or_eq_true,
        Bool.not_eq_true'] at hP
      obtain ⟨⟨hid, hacc⟩, -⟩ := hP
      rcases hacc with hownq | hmemq
      · exact hown q hq hid hownq
      · rw [hid] at hmemq
        rw [hmem'] at hmemq
        exact Bool.false_ne_true hmemq
    rw [hfind]
  refine ⟨h1, ?_⟩
  intro pid2 habsent
  have h2 : get_plan_by_id db u pid2 = .error .notFound := by
    rw [get_plan_by_id]
    have hfind : db.plans.find? (planAccessPred db u pid2) = none := by
      refine List.find?_eq_none.mpr ?_
      intro q hq hP
      rw [planAccessPred] at hP
      simp only [Bool.and_eq_true, beq_iff_eq] at hP
      exact habsent q hq hP.1.1
    rw [hfind]
  exact ⟨h2, h1.trans h2.symm⟩

/-- Database used by the access-control witnesses: plan 1 owned by user 10,
user 20 an invited member, user 30 a stranger, user 40 with a known email. -/
def cexDB : DB :=
  { plans := [{ id := 1, user_id := 10, name := "p", description := none,
                deleted := false }],
    exercises := [{ id := 5, plan_id := 1, name := "run",
                    duration_minutes := some 30, repetitions := none,
                    order_index := 0 }],
    reminders := [{ id := 9, plan_id := 1,
                    reminder_time := { hour := 7, minute := 0, second := 0 },
                    frequency := .daily, days_of_week := none,
                    is_enabled := true }],
    members := [{ id := 1, plan_id := 1, user_id := 20, invited_by := some 10 }],
    users := [{ id := 10, email := "o@x.com" }, { id := 20, email := "m@x.com" },
              { id := 30, email := "s@x.com" }, { id := 40, email := "i@x.com" }],
    executions := [] }

/-- Witness for C9: the stranger (user 30) reading plan 1 gets exactly the
result of reading the absent plan 99. -/
theorem plan_access_denied_notfound_witness :
    get_plan_by_id cexDB 30 1 = .error .notFound ∧
    get_plan_by_id cexDB 30 99 = .error .notFound ∧
    get_plan_by_id cexDB 30 1 = get_plan_by_id cexDB 30 99 := by
  have h := plan_access_denied_notfound cexDB 30 1 (by decide) (by decide)
  have h2 := h.2 99 (by decide)
  exact ⟨h.1, h2.1, h2.2⟩

/-- C10: `invite_member` never checks the inviter's relationship to the
plan — the outcome kind is identical for any two inviters; with an existing
plan, an existing invitee and no prior membership it succeeds and records
the membership; and every failure is NotFound or the already-member error,
never an access denial. -/
theorem invite_member_no_inviter_check (db : DB) (pid : Nat)
    (email : String) (mid : Nat) :
    (∀ u1 u2, (invite_member db pid u1 email mid).isOk =
        (invite_member db pid u2 email mid).isOk ∧
      (∀ err, invite_member db pid u1 email mid = .error err ↔
        invite_member db pid u2 email mid = .error err)) ∧
    (∀ u inv p, db.plans.find? (fun q => q.id == pid) = some p →
      db.users.find? (fun x => x.email == email) = some inv →
      db.members.find? (fun m => m.plan_id == pid && m.user_id == inv.id) = none →
      ∃ m db', invite_member db pid u email mid = .ok (m, db') ∧
        m.plan_id = pid ∧ m.user_id = inv.id ∧ m.invited_by = some u ∧
        m ∈ db'.members) ∧
    (∀ u err, invite_member db pid u email mid = .error err →
      err = .notFound ∨ err = .alreadyMember) := by
  refine ⟨?_, ?_, ?_⟩
  · intro u1 u2
    rw [invite_member, invite_member]
    cases hp : db.plans.find? (fun q => q.id == pid) with
    | none => simp [hp]
    | some p =>
      cases hu : db.users.find? (fun x => x.email == email) with
      | none => simp [hp, hu]
      | some inv =>
        cases hm : db.members.find?
            (fun m => m.plan_id == pid && m.user_id == inv.id) with
        | none => simp [hp, hu, hm, Except.isOk, Except.toBool]
        | some m => simp [hp, hu, hm, Except.isOk, Except.toBool]
  · intro u inv p hp hu hm
    rw [invite_member]
    simp only [hp, hu, hm]
    refine ⟨_, _, rfl, rfl, rfl, rfl, ?_⟩
    simp
  · intro u err h
    rw [invite_member] at h
    cases hp : db.plans.find? (fun q => q.id == pid) with
    | none => simp only [hp] at h; exact Or.inl (by cases h; rfl)
    | some p =>
      simp only [hp] at h
      cases hu : db.users.find? (fun x => x.email == email) with
      | none => simp only [hu] at h; exact Or.inl (by cases h; rfl)
      | some inv =>
        simp only [hu] at h
        cases hm : db.members.find?
            (fun m => m.plan_id == pid && m.user_id == inv.id) with
        | none => simp only [hm] at h; cases h
        | some m => simp only [hm] at h; exact Or.inr (by cases h; rfl)

/-- Witness for C10: the stranger (user 30, neither owner nor member of
plan 1) successfully invites user 40 by email; the created membership
records inviter 30; and the stranger's and the owner's outcomes agree. -/
theorem invite_member_no_inviter_check_witness :
    (∃ m db', invite_member cexDB 1 30 "i@x.com" 7 = .ok (m, db') ∧
      m.plan_id = 1 ∧ m.user_id = 40 ∧ m.invited_by = some 30 ∧
      m ∈ db'.members) ∧
    (invite_member cexDB 1 30 "i@x.com" 7).isOk =
      (invite_member cexDB 1 10 "i@x.com" 7).isOk := by
  have h := invite_member_no_inviter_check cexDB 1 "i@x.com" 7
  exact ⟨h.2.1 30 { id := 40, email := "i@x.com" }
      { id := 1, user_id := 10, name := "p", description := none,
        deleted := false } (by decide) (by decide) (by decide),
    (h.1 30 10).1⟩

/-! ## Access control for write operations (claim C2) -/

theorem find?_eq_some_of_unique {α : Type} (l : List α) (P : α → Bool) (a : α)
    (ha : a ∈ l) (hPa : P a = true) (huniq : ∀ b ∈ l, P b = true → b = a) :
    l.find? P = some a := by
  cases hf : l.find? P with
  | none => exact absurd hPa (List.find?_eq_none.mp hf a ha)
  | some b => rw [huniq b (List.mem_of_find?_eq_some hf) (List.find?_some hf)]

theorem exists_find?_of_sat {α : Type} (l : List α) (P : α → Bool) (a : α)
    (ha : a ∈ l) (hPa : P a = true) : ∃ b, l.find? P = some b := by
  cases hf : l.find? P with
  | none => exact absurd hPa (List.find?_eq_none.mp hf a ha)
  | some b => exact ⟨b, rfl⟩

theorem ownedPlanPred_find_none (db : DB) (u pid : Nat)
    (hno : ∀ q ∈ db.plans, q.id = pid → q.user_id ≠ u) :
    db.plans.find? (ownedPlanPred u pid) = none := by
  refine List.find?_eq_none.mpr ?_
  intro q hq hP
  rw [ownedPlanPred] at hP
  simp only [Bool.and_eq_true, beq_iff_eq, Bool.not_eq_true'] at hP
  exact hno q hq hP.1.1 hP.1.2

theorem ownedExercisePred_find_none (db : DB) (u pid eid : Nat)
    (hno : ∀ q ∈ db.plans, q.id = pid → q.user_id ≠ u) :
    db.exercises.find? (ownedExercisePred db u pid eid) = none := by
  refine List.find?_eq_none.mpr ?_
  intro e he hP
  rw [ownedExercisePred] at hP
  simp only [Bool.and_eq_true, beq_iff_eq, List.any_eq_true,
    Bool.not_eq_true'] at hP
  obtain ⟨⟨hid, hpid⟩, q, hq, ⟨hqid, hqu⟩, hqdel⟩ := hP
  exact hno q hq (hqid.trans hpid) hqu

theorem ownedReminderPred_find_none (db : DB) (u pid rid : Nat)
    (hno : ∀ q ∈ db.plans, q.id = pid → q.user_id ≠ u) :
    db.reminders.find? (ownedReminderPred db u pid rid) = none := by
  refine List.find?_eq_none.mpr ?_
  intro r hr hP
  rw [ownedReminderPred] at hP
  simp only [Bool.and_eq_true, beq_iff_eq, List.any_eq_true,
    Bool.not_eq_true'] at hP
  obtain ⟨⟨hid, hpid⟩, q, hq, ⟨hqid, hqu⟩, hqdel⟩ := hP
  exact hno q hq (hqid.trans hpid) hqu

/-- `get_plan_by_id` succeeds for the plan's owner and for any member. -/
theorem get_plan_by_id_access (db : DB) (u : Nat) (p : FitnessPlan)
    (hp : p ∈ db.plans) (hoid : ∀ q ∈ db.plans, q.id = p.id → q = p)
    (hdel : p.deleted = false)
    (hacc : p.user_id = u ∨ isMemberOf db u p.id = true) :
    get_plan_by_id db u p.id = .ok p := by
  rw [get_plan_by_id]
  have hfind : db.plans.find? (planAccessPred db u p.id) = some p := by
    refine find?_eq_some_of_unique _ _ p hp ?_ ?_
    · rw [planAccessPred]
      simp only [Bool.and_eq_true, beq_iff_eq, Bool.or_eq_true, Bool.not_eq_true']
      exact ⟨⟨by simp, hacc⟩, hdel⟩
    · intro b hb hPb
      rw [planAccessPred] at hPb
      simp only [Bool.and_eq_true, beq_iff_eq] at hPb
      exact hoid b hb hPb.1.1
  rw [hfind]

/-- C2 (amended): for a user `u` who is a member but not the owner of plan
`p`, every exercise mutation (add/update/delete) and every reminder
mutation (create/update/delete) fails with the NotFound kind, but — unlike
the original claim — plan update and plan delete succeed for the member,
because their access check (`get_plan_by_id`) admits owner OR member.  For
the owner, none of these operations fails for access reasons: plan
update/delete, exercise add, exercise/reminder update and reminder
create/delete on existing rows succeed, and exercise delete never signals
NotFound (it may still signal BusinessRuleViolation for the last
exercise). -/
theorem write_access_control (db : DB) (p : FitnessPlan) (u : Nat)
    (hp : p ∈ db.plans)
    (hoid : ∀ q ∈ db.plans, q.id = p.id → q = p)
    (hdel : p.deleted = false)
    (hown : p.user_id ≠ u)
    (hmem : isMemberOf db u p.id = true) :
    (∀ d eid, add_exercise db u p.id d eid = .error .notFound) ∧
    (∀ eid d, update_exercise db u p.id eid d = .error .notFound) ∧
    (∀ eid, delete_exercise db u p.id eid = .error .notFound) ∧
    (∀ d rid, create_reminder db u p.id d rid = .error .notFound) ∧
    (∀ rid d, update_reminder db u p.id rid d = .error .notFound) ∧
    (∀ rid, delete_reminder db u p.id rid = .error .notFound) ∧
    (∀ d, (update_plan db u p.id d).isOk = true) ∧
    ((delete_plan db u p.id).isOk = true) ∧
    (∀ d, (update_plan db p.user_id p.id d).isOk = true) ∧
    ((delete_plan db p.user_id p.id).isOk = true) ∧
    (∀ d eid, (add_exercise db p.user_id p.id d eid).isOk = true) ∧
    (∀ e ∈ db.exercises, e.plan_id = p.id →
      ∀ d, (update_exercise db p.user_id p.id e.id d).isOk = true) ∧
    (∀ e ∈ db.exercises, e.plan_id = p.id →
      delete_exercise db p.user_id p.id e.id ≠ .error .notFound) ∧
    (∀ d rid, (create_reminder db p.user_id p.id d rid).isOk = true) ∧
    (∀ r ∈ db.reminders, r.plan_id = p.id →
      ∀ d, (update_reminder db p.user_id p.id r.id d).isOk = true) ∧
    (∀ r ∈ db.reminders, r.plan_id = p.id →
      (delete_reminder db p.user_id p.id r.id).isOk = true) := by
  have hno : ∀ q ∈ db.plans, q.id = p.id → q.user_id ≠ u := by
    intro q hq hid
    rw [hoid q hq hid]
    exact hown
  have hPplan : ownedPlanPred p.user_id p.id p = true := by
    rw [ownedPlanPred]
    simp [hdel]
  have hexpred : ∀ e ∈ db.exercises, e.plan_id = p.id →
      ownedExercisePred db p.user_id p.id e.id e = true := by
    intro e he hpe
    rw [ownedExercisePred]
    simp only [Bool.and_eq_true, beq_iff_eq, List.any_eq_true, Bool.not_eq_true']
    exact ⟨⟨by simp, hpe⟩, p, hp, ⟨hpe.symm, by simp⟩, hdel⟩
  have hrpred : ∀ r ∈ db.reminders, r.plan_id = p.id →
      ownedReminderPred db p.user_id p.id r.id r = true := by
    intro r hr hpr
    rw [ownedReminderPred]
    simp only [Bool.and_eq_true, beq_iff_eq, List.any_eq_true, Bool.not_eq_true']
    exact ⟨⟨by simp, hpr⟩, p, hp, ⟨hpr.symm, by simp⟩, hdel⟩
  refine ⟨?_, ?_, ?_, ?_, ?_, ?_, ?_, ?_, ?_, ?_, ?_, ?_, ?_, ?_, ?_, ?_⟩
  · intro d eid
    rw [add_exercise, ownedPlanPred_find_none db u p.id hno]
  · intro eid d
    rw [update_exercise, ownedExercisePred_find_none db u p.id eid hno]
  · intro eid
    rw [delete_exercise, ownedExercisePred_find_none db u p.id eid hno]
  · intro d rid
    rw [create_reminder, ownedPlanPred_find_none db u p.id hno]
  · intro rid d
    rw [update_reminder, ownedReminderPred_find_none db u p.id rid hno]
  · intro rid
    rw [delete_reminder, ownedReminderPred_find_none db u p.id rid hno]
  · intro d
    rw [update_plan, get_plan_by_id_access db u p hp hoid hdel (Or.inr hmem)]
    rfl
  · rw [delete_plan, get_plan_by_id_access db u p hp hoid hdel (Or.inr hmem)]
    rfl
  · intro d
    rw [update_plan, get_plan_by_id_access db p.user_id p hp hoid hdel (Or.inl rfl)]
    rfl
  · rw [delete_plan, get_plan_by_id_access db p.user_id p hp hoid hdel (Or.inl rfl)]
    rfl
  · intro d eid
    obtain ⟨b, hb⟩ := exists_find?_of_sat db.plans _ p hp hPplan
    rw [add_exercise, hb]
    rfl
  · intro e he hpe d
    obtain ⟨b, hb⟩ := exists_find?_of_sat db.exercises _ e he (hexpred e he hpe)
    rw [update_exercise, hb]
    rfl
  · intro e he hpe
    obtain ⟨b, hb⟩ := exists_find?_of_sat db.exercises _ e he (hexpred e he hpe)
    rw [delete_exercise]
    simp only [hb]
    split <;> simp
  · intro d rid
    obtain ⟨b, hb⟩ := exists_find?_of_sat db.plans _ p hp hPplan
    rw [create_reminder, hb]
    rfl
  · intro r hr hpr d
    obtain ⟨b, hb⟩ := exists_find?_of_sat db.reminders _ r hr (hrpred r hr hpr)
    rw [update_reminder, hb]
    rfl
  · intro r hr hpr
    obtain ⟨b, hb⟩ := exists_find?_of_sat db.reminders _ r hr (hrpred r hr hpr)
    rw [delete_reminder, hb]
    rfl

/-- Counterexample to C2 as stated: user 20 is a member (not the owner) of
plan 1 in `cexDB`, yet `update_plan` and `delete_plan` succeed for them
instead of failing with NotFound. -/
theorem write_access_control_counterexample :
    (update_plan cexDB 20 1 { name := none, description := none }).isOk = true ∧
    (delete_plan cexDB 20 1).isOk = true ∧
    ¬(update_plan cexDB 20 1 { name := none, description := none } =
      Except.error Err.notFound) := by
  refine ⟨rfl, rfl, fun h => ?_⟩
  have hok : (update_plan cexDB 20 1
      { name := none, description := none }).isOk = true := rfl
  rw [h] at hok
  simp [Except.isOk, Except.toBool] at hok

/-- Witness for the amended C2 at `cexDB` (owner 10, member 20,
exercise 5, reminder 9 on plan 1). -/
theorem write_access_control_witness :
    add_exercise cexDB 20 1
      { name := "x", duration_minutes := some 10, repetitions := none,
        order_index := 1 } 6 = .error .notFound ∧
    update_exercise cexDB 20 1 5
      { name := none, duration_minutes := none, repetitions := none,
        order_index := none } = .error .notFound ∧
    delete_exercise cexDB 20 1 5 = .error .notFound ∧
    create_reminder cexDB 20 1
      { reminder_time := { hour := 7, minute := 0, second := 0 },
        frequency := .daily, days_of_week := none, is_enabled := true } 8 =
      .error .notFound ∧
    update_reminder cexDB 20 1 9
      { reminder_time := none, frequency := none, days_of_week := none,
        is_enabled := none } = .error .notFound ∧
    delete_reminder cexDB 20 1 9 = .error .notFound ∧
    (update_plan cexDB 20 1 { name := some "n", description := none }).isOk = true ∧
    (update_exercise cexDB 10 1 5
      { name := none, duration_minutes := none, repetitions := none,
        order_index := none }).isOk = true ∧
    (delete_reminder cexDB 10 1 9).isOk = true := by
  have h := write_access_control cexDB
    { id := 1, user_id := 10, name := "p", description := none, deleted := false }
    20 (by decide) (by decide) rfl (by decide) (by decide)
  obtain ⟨h1, h2, h3, h4, h5, h6, h7, h8, h9, h10, h11, h12, h13, h14, h15, h16⟩ := h
  exact ⟨h1 _ 6, h2 5 _, h3 5, h4 _ 8, h5 9 _, h6 9, h7 _,
    h12 { id := 5, plan_id := 1, name := "run", duration_minutes := some 30,
          repetitions := none, order_index := 0 } (by decide) rfl _,
    h16 { id := 9, plan_id := 1,
          reminder_time := { hour := 7, minute := 0, second := 0 },
          frequency := .daily, days_of_week := none, is_enabled := true }
      (by decide) rfl⟩

/-! ## Operation sequences and the non-empty-exercise-set invariant (C3) -/

/-- One mutating API call of the plan/exercise/reminder/member services. -/
inductive Op where
  | createPlan (user_id : Nat) (d : FitnessPlanCreate) (newPid newEidBase : Nat)
  | updatePlan (user_id plan_id : Nat) (d : FitnessPlanUpdate)
  | deletePlan (user_id plan_id : Nat)
  | addExercise (user_id plan_id : Nat) (d : ExerciseCreate) (newEid : Nat)
  | updateExercise (user_id plan_id exercise_id : Nat) (d : ExerciseUpdate)
  | deleteExercise (user_id plan_id exercise_id : Nat)
  | createReminder (user_id plan_id : Nat) (d : ReminderCreate) (newRid : Nat)
  | updateReminder (user_id plan_id reminder_id : Nat) (d : ReminderUpdate)
  | deleteReminder (user_id plan_id reminder_id : Nat)
  | inviteMember (plan_id inviter_user_id : Nat) (email : String) (newMid : Nat)
  | removeMember (plan_id user_id : Nat)

/-- Apply one call.  `createPlan` includes the boundary validation of
`FitnessPlanCreate` (a plan must be created with at least one exercise),
which runs before the service. -/
def applyOp (op : Op) (db : DB) : Except Err DB :=
  match op with
  | .createPlan uid d pid eb =>
    if d.exercises.isEmpty then .error .validationError
    else .ok (create_plan db uid d pid eb).2
  | .updatePlan uid pid d => (update_plan db uid pid d).map (fun x => x.2)
  | .deletePlan uid pid => delete_plan db uid pid
  | .addExercise uid pid d eid => (add_exercise db uid pid d eid).map (fun x => x.2)
  | .updateExercise uid pid eid d => (update_exercise db uid pid eid d).map (fun x => x.2)
  | .deleteExercise uid pid eid => delete_exercise db uid pid eid
  | .createReminder uid pid d rid => (create_reminder db uid pid d rid).map (fun x => x.2)
  | .updateReminder uid pid rid d => (update_reminder db uid pid rid d).map (fun x => x.2)
  | .deleteReminder uid pid rid => delete_reminder db uid pid rid
  | .inviteMember pid inviter email mid => (invite_member db pid inviter email mid).map (fun x => x.2)
  | .removeMember pid uid => remove_member db pid uid

/-- Run a sequence of calls; a failing call raises and leaves the store
unchanged (services commit only on success). -/
def runOps : List Op → DB → DB
  | [], db => db
  | op :: rest, db =>
    match applyOp op db with
    | .ok db' => runOps rest db'
    | .error _ => runOps rest db

/-- The §4.2 aggregate invariant: every non-deleted plan has at least one
exercise. -/
def PlanInv (db : DB) : Prop :=
  ∀ p ∈ db.plans, p.deleted = false → 1 ≤ exerciseCount db p.id

theorem replaceFirst_filter_length {α : Type} (P Q : α → Bool) (f : α → α)
    (hf : ∀ a, Q a = true → P (f a) = P a) :
    ∀ l : List α, ((replaceFirst Q f l).filter P).length = (l.filter P).length := by
  intro l
  induction l with
  | nil => rfl
  | cons x xs ih =>
    rw [replaceFirst]
    by_cases hQ : Q x = true
    · rw [if_pos hQ, List.filter_cons, List.filter_cons, hf x hQ]
      split <;> simp
    · rw [if_neg hQ, List.filter_cons, List.filter_cons]
      split <;> simp [ih]

theorem mem_replaceFirst {α : Type} (Q : α → Bool) (f : α → α) :
    ∀ (l : List α), ∀ b ∈ replaceFirst Q f l,
      b ∈ l ∨ ∃ a ∈ l, Q a = true ∧ b = f a := by
  intro l
  induction l with
  | nil => simp [replaceFirst]
  | cons x xs ih =>
    intro b hb
    rw [replaceFirst] at hb
    by_cases hQ : Q x = true
    · rw [if_pos hQ] at hb
      rcases List.mem_cons.mp hb with rfl | h
      · exact Or.inr ⟨x, List.mem_cons_self _ _, hQ, rfl⟩
      · exact Or.inl (List.mem_cons_of_mem _ h)
    · rw [if_neg hQ] at hb
      rcases List.mem_cons.mp hb with rfl | h
      · exact Or.inl (List.mem_cons_self _ _)
      · rcases ih b h with h' | ⟨a, ha, hQa, rfl⟩
        · exact Or.inl (List.mem_cons_of_mem _ h')
        · exact Or.inr ⟨a, List.mem_cons_of_mem _ ha, hQa, rfl⟩

theorem eraseP_filter_length_imp {α : Type} (P Q : α → Bool)
    (himp : ∀ a, Q a = true → P a = true) :
    ∀ l : List α, (∃ a ∈ l, Q a = true) →
      ((l.eraseP Q).filter P).length + 1 = (l.filter P).length := by
  intro l
  induction l with
  | nil =>
    rintro ⟨a, ha, -⟩
    exact absurd ha (List.not_mem_nil a)
  | cons x xs ih =>
    rintro ⟨a, ha, hQa⟩
    by_cases hQx : Q x = true
    · rw [List.eraseP_cons_of_pos hQx, List.filter_cons, himp x hQx]
      simp
    · rw [List.eraseP_cons_of_neg hQx, List.filter_cons, List.filter_cons]
      have hax : a ∈ xs := by
        rcases List.mem_cons.mp ha with rfl | h
        · exact absurd hQa hQx
        · exact h
      have hrec := ih ⟨a, hax, hQa⟩
      by_cases hPx : P x = true
      · rw [if_pos hPx, if_pos hPx]
        simp only [List.length_cons]
        omega
      · rw [if_neg hPx, if_neg hPx]
        exact hrec

theorem eraseP_filter_length_disj {α : Type} (P Q : α → Bool)
    (hdisj : ∀ a, Q a = true → P a = false) :
    ∀ l : List α, ((l.eraseP Q).filter P).length = (l.filter P).length := by
  intro l
  induction l with
  | nil => rfl
  | cons x xs ih =>
    by_cases hQx : Q x = true
    · rw [List.eraseP_cons_of_pos hQx, List.filter_cons, hdisj x hQx]
      simp
    · rw [List.eraseP_cons_of_neg hQx, List.filter_cons, List.filter_cons]
      by_cases hPx : P x = true
      · rw [if_pos hPx, if_pos hPx]
        simp [ih]
      · rw [if_neg hPx, if_neg hPx]
        exact ih

/-- `PlanInv` only reads `plans` and `exercises`. -/
theorem planInv_transfer (db db' : DB) (hp : db'.plans = db.plans)
    (he : db'.exercises = db.exercises) (h : PlanInv db) : PlanInv db' := by
  intro p hpm hd
  have hc : exerciseCount db' p.id = exerciseCount db p.id := by
    rw [exerciseCount, exerciseCount, he]
  rw [hc]
  exact h p (hp ▸ hpm) hd

theorem get_plan_by_id_ok (db : DB) (u pid : Nat) (p : FitnessPlan)
    (h : get_plan_by_id db u pid = .ok p) :
    p ∈ db.plans ∧ planAccessPred db u pid p = true := by
  rw [get_plan_by_id] at h
  cases hf : db.plans.find? (planAccessPred db u pid) with
  | none => rw [hf] at h; cases h
  | some q =>
    rw [hf] at h
    cases h
    exact ⟨List.mem_of_find?_eq_some hf, List.find?_some hf⟩

theorem newPlanExercises_plan_id (d : FitnessPlanCreate) (pid eb : Nat) :
    ∀ e ∈ newPlanExercises d pid eb, e.plan_id = pid := by
  intro e he
  obtain ⟨pr, hpr, rfl⟩ := List.mem_map.mp he
  rfl

theorem newPlanExercises_length (d : FitnessPlanCreate) (pid eb : Nat) :
    (newPlanExercises d pid eb).length = d.exercises.length := by
  rw [newPlanExercises, List.length_map, List.enum_length]

/-- Appending exercises never decreases any plan's exercise count. -/
theorem exerciseCount_append_ge (db : DB) (l : List Exercise) (pid : Nat) :
    exerciseCount db pid ≤
      exerciseCount { db with exercises := db.exercises ++ l } pid := by
  rw [exerciseCount, exerciseCount]
  simp [List.filter_append]

/-- A non-empty batch of exercises all attached to plan `pid` gives plan
`pid` a positive exercise count. -/
theorem exerciseCount_append_new (db : DB) (l : List Exercise) (pid : Nat)
    (hl : ∀ e ∈ l, e.plan_id = pid) (hne : l ≠ []) :
    1 ≤ exerciseCount { db with exercises := db.exercises ++ l } pid := by
  rw [exerciseCount]
  simp only [List.filter_append, List.length_append]
  have hself : l.filter (fun x => x.plan_id == pid) = l :=
    List.filter_eq_self.mpr (fun a ha => by simp [hl a ha])
  rw [hself]
  have hlen : 0 < l.length := List.length_pos.mpr hne
  omega

/-- Every successful service call preserves the invariant. -/
theorem applyOp_preserves_inv (op : Op) (db db' : DB)
    (h : applyOp op db = .ok db') (hinv : PlanInv db) : PlanInv db' := by
  cases op with
  | createPlan uid d pid eb =>
    rw [applyOp] at h
    by_cases hv : d.exercises.isEmpty
    · rw [if_pos hv] at h; cases h
    · rw [if_neg hv] at h
      cases h
      intro p hp hd
      have hp' : p ∈ db.plans ++
          [({ id := pid, user_id := uid, name := d.name,
              description := d.description, deleted := false } : FitnessPlan)] := hp
      rcases List.mem_append.mp hp' with hold | hnew
      · exact le_trans (hinv p hold hd)
          (exerciseCount_append_ge db (newPlanExercises d pid eb) p.id)
      · rw [List.mem_singleton] at hnew
        subst hnew
        refine exerciseCount_append_new db (newPlanExercises d pid eb) _
          (newPlanExercises_plan_id d pid eb) ?_
        intro h0
        rw [List.isEmpty_iff] at hv
        have := newPlanExercises_length d pid eb
        rw [h0] at this
        exact hv (List.length_eq_zero.mp this.symm)
  | updatePlan uid pid d =>
    rw [applyOp, update_plan] at h
    cases hg : get_plan_by_id db uid pid with
    | error e2 => simp only [hg, Except.map] at h; cases h
    | ok p =>
      simp only [hg, Except.map] at h
      cases h
      obtain ⟨hpmem, hpacc⟩ := get_plan_by_id_ok db uid pid p hg
      have hpdel : p.deleted = false := by
        rw [planAccessPred] at hpacc
        simp only [Bool.and_eq_true, Bool.not_eq_true'] at hpacc
        exact hpacc.2
      intro q hq hd
      rcases mem_replaceFirst _ _ db.plans q hq with hold | ⟨a, ha, hQa, rfl⟩
      · exact hinv q hold hd
      · exact hinv p hpmem hpdel
  | deletePlan uid pid =>
    rw [applyOp, delete_plan] at h
    cases hg : get_plan_by_id db uid pid with
    | error e2 => simp only [hg] at h; cases h
    | ok p =>
      simp only [hg] at h
      cases h
      intro q hq hd
      rcases mem_replaceFirst _ _ db.plans q hq with hold | ⟨a, ha, hQa, rfl⟩
      · exact hinv q hold hd
      · simp at hd
  | addExercise uid pid d eid =>
    rw [applyOp, add_exercise] at h
    cases hfind : db.plans.find? (ownedPlanPred uid pid) with
    | none => simp only [hfind] at h; cases h
    | some pl =>
      simp only [hfind, Except.map] at h
      cases h
      intro q hq hd
      exact le_trans (hinv q hq hd) (exerciseCount_append_ge db _ q.id)
  | updateExercise uid pid eid d =>
    rw [applyOp, update_exercise] at h
    cases hfind : db.exercises.find? (ownedExercisePred db uid pid eid) with
    | none => simp only [hfind] at h; cases h
    | some e =>
      simp only [hfind, Except.map] at h
      cases h
      have hQe := List.find?_some hfind
      have hepid : e.plan_id = pid := by
        rw [ownedExercisePred] at hQe
        simp only [Bool.and_eq_true, beq_iff_eq] at hQe
        exact hQe.1.2
      intro q hq hd
      have hlen := replaceFirst_filter_length (fun x => x.plan_id == q.id)
        (ownedExercisePred db uid pid eid) (fun _ => applyExerciseUpdate d e)
        (fun a ha => by
          have hapid : a.plan_id = pid := by
            rw [ownedExercisePred] at ha
            simp only [Bool.and_eq_true, beq_iff_eq] at ha
            exact ha.1.2
          have heq : (applyExerciseUpdate d e).plan_id = e.plan_id := rfl
          show ((applyExerciseUpdate d e).plan_id == q.id) = (a.plan_id == q.id)
          rw [heq, hepid, hapid]) db.exercises
      show 1 ≤ ((replaceFirst (ownedExercisePred db uid pid eid)
        (fun _ => applyExerciseUpdate d e) db.exercises).filter
          (fun x => x.plan_id == q.id)).length
      rw [hlen]
      exact hinv q hq hd
  | deleteExercise uid pid eid =>
    rw [applyOp, delete_exercise] at h
    cases hfind : db.exercises.find? (ownedExercisePred db uid pid eid) with
    | none => simp only [hfind] at h; cases h
    | some e =>
      simp only [hfind] at h
      by_cases hc : exerciseCount db pid ≤ 1
      · rw [if_pos hc] at h; cases h
      · rw [if_neg hc] at h
        cases h
        have hQe := List.find?_some hfind
        have heme := List.mem_of_find?_eq_some hfind
        have hQpid : ∀ a, ownedExercisePred db uid pid eid a = true →
            a.plan_id = pid := by
          intro a ha
          rw [ownedExercisePred] at ha
          simp only [Bool.and_eq_true, beq_iff_eq] at ha
          exact ha.1.2
        intro q hq hd
        by_cases hqid : q.id = pid
        · have hlen := eraseP_filter_length_imp (fun x => x.plan_id == pid)
            (ownedExercisePred db uid pid eid)
            (fun a ha => by simp [hQpid a ha]) db.exercises ⟨e, heme, hQe⟩
          rw [exerciseCount] at hc
          show 1 ≤ ((db.exercises.eraseP (ownedExercisePred db uid pid eid)).filter
            (fun x => x.plan_id == q.id)).length
          rw [hqid]
          omega
        · have hlen := eraseP_filter_length_disj (fun x => x.plan_id == q.id)
            (ownedExercisePred db uid pid eid)
            (fun a ha => by
              show (a.plan_id == q.id) = false
              rw [hQpid a ha, beq_eq_false_iff_ne]
              exact fun hh => hqid hh.symm) db.exercises
          have hbase := hinv q hq hd
          rw [exerciseCount] at hbase
          show 1 ≤ ((db.exercises.eraseP (ownedExercisePred db uid pid eid)).filter
            (fun x => x.plan_id == q.id)).length
          rw [hlen]
          exact hbase
  | createReminder uid pid d rid =>
    rw [applyOp, create_reminder] at h
    cases hfind : db.plans.find? (ownedPlanPred uid pid) with
    | none => simp only [hfind] at h; cases h
    | some pl =>
      simp only [hfind, Except.map] at h
      cases h
      exact planInv_transfer _ db rfl rfl hinv
  | updateReminder uid pid rid d =>
    rw [applyOp, update_reminder] at h
    cases hfind : db.reminders.find? (ownedReminderPred db uid pid rid) with
    | none => simp only [hfind] at h; cases h
    | some r =>
      simp only [hfind, Except.map] at h
      cases h
      exact planInv_transfer _ db rfl rfl hinv
  | deleteReminder uid pid rid =>
    rw [applyOp, delete_reminder] at h
    cases hfind : db.reminders.find? (ownedReminderPred db uid pid rid) with
    | none => simp only [hfind] at h; cases h
    | some r =>
      simp only [hfind] at h
      cases h
      exact planInv_transfer _ db rfl rfl hinv
  | inviteMember pid inviter email mid =>
    rw [applyOp, invite_member] at h
    cases h1 : db.plans.find? (fun q => q.id == pid) with
    | none => simp only [h1] at h; cases h
    | some pl =>
      simp only [h1] at h
      cases h2 : db.users.find? (fun x => x.email == email) with
      | none => simp only [h2] at h; cases h
      | some inv =>
        simp only [h2] at h
        cases h3 : db.members.find?
            (fun m => m.plan_id == pid && m.user_id == inv.id) with
        | some m => simp only [h3] at h; cases h
        | none =>
          simp only [h3, Except.map] at h
          cases h
          exact planInv_transfer _ db rfl rfl hinv
  | removeMember pid uid =>
    rw [applyOp, remove_member] at h
    cases h1 : db.members.find? (fun m => m.plan_id == pid && m.user_id == uid) with
    | none => simp only [h1] at h; cases h
    | some m =>
      simp only [h1] at h
      cases h
      exact planInv_transfer _ db rfl rfl hinv

theorem runOps_preserves_inv :
    ∀ (ops : List Op) (db : DB), PlanInv db → PlanInv (runOps ops db) := by
  intro ops
  induction ops with
  | nil => intro db h; exact h
  | cons op rest ih =>
    intro db h
    rw [runOps]
    cases ha : applyOp op db with
    | ok db2 =>
      simp only [ha]
      exact ih db2 (applyOp_preserves_inv op db db2 ha h)
    | error e =>
      simp only [ha]
      exact ih db h

/-- C3: deleting the sole exercise of a plan (the ownership join finds the
exercise and the plan's exercise count is exactly 1) always fails with the
BusinessRuleViolation kind — not NotFound — and, the operation erroring,
produces no new store, so the exercise and the plan's exercise set are
unchanged; consequently the invariant "every non-deleted plan has at least
one exercise" is preserved by every sequence of service calls. -/
theorem delete_last_exercise_brv (db : DB) :
    (∀ user_id plan_id exercise_id ex,
      db.exercises.find? (ownedExercisePred db user_id plan_id exercise_id) =
        some ex →
      exerciseCount db plan_id = 1 →
      delete_exercise db user_id plan_id exercise_id =
        .error .businessRuleViolation) ∧
    (∀ ops, PlanInv db → PlanInv (runOps ops db)) := by
  constructor
  · intro uid pid eid ex hfind hcount
    rw [delete_exercise]
    simp only [hfind]
    rw [if_pos (by omega)]
  · intro ops h
    exact runOps_preserves_inv ops db h

/-- Store for the C3 witness: one plan with exactly one exercise. -/
def cexDB3 : DB :=
  { plans := [{ id := 1, user_id := 10, name := "p", description := none,
                deleted := false }],
    exercises := [{ id := 5, plan_id := 1, name := "run",
                    duration_minutes := some 30, repetitions := none,
                    order_index := 0 }],
    reminders := [], members := [], users := [], executions := [] }

/-- Witness for C3: the owner deleting the sole exercise of plan 1 gets
BusinessRuleViolation, and the invariant holds after attempting it. -/
theorem delete_last_exercise_brv_witness :
    delete_exercise cexDB3 10 1 5 = .error .businessRuleViolation ∧
    PlanInv (runOps [Op.deleteExercise 10 1 5] cexDB3) := by
  have h := delete_last_exercise_brv cexDB3
  have hinv3 : PlanInv cexDB3 := by
    intro p hp hd
    simp only [cexDB3, List.mem_singleton] at hp
    subst hp
    decide
  exact ⟨h.1 10 1 5
    { id := 5, plan_id := 1, name := "run", duration_minutes := some 30,
      repetitions := none, order_index := 0 } (by decide) (by decide),
    h.2 [Op.deleteExercise 10 1 5] hinv3⟩

end FitnessManager
